import Mathlib

/-!
A verification development for the BMS-LTC6804 firmware core: a shallow
embedding of the dual-CPU sample pipeline (statistics aggregator, inter-core
queue, history ring, application state machine, HTTP config-save handler and
the watchdog-feeding latch), with theorems checking the natural-language
specification against the embedded code.

Modelling conventions:
* C `float` fields are modelled over exact rationals (`ℚ`); the properties
  proved depend only on order comparisons of stored values, not on
  floating-point rounding.
* Machine integers are modelled as `ℕ`; where a C cast could truncate
  (`(uint16_t)(1u << k)`) the reduction modulo `2^16` is written explicitly.
* C strings are modelled as `List Char`, byte buffers as `List ℕ`.
* Pointer-validity guards (`!buf`, `!out_stats`) concern the C calling
  convention and are not modelled: structures are passed by value.
-/

namespace BMS

/-- `BMS_NUM_CELLS` from `bms_data.h`: number of cells in the battery pack. -/
def BMS_NUM_CELLS : ℕ := 5

/-- One measured BMS sample (`bms_sample_t` in `bms_data.h`). -/
structure bms_sample where
  cell_v : List ℚ
  pack_v : ℚ
  pack_i : ℚ
  timestamp : ℕ
deriving DecidableEq

/-- `bms_sample_zero` from `process.c`: the all-zero sample a consumed slot is
overwritten with (`memset(sample, 0, sizeof(*sample))`). -/
def bms_sample_zero : bms_sample :=
  { cell_v := List.replicate BMS_NUM_CELLS 0, pack_v := 0, pack_i := 0, timestamp := 0 }

/-- Ring buffer of samples (`bms_sample_buffer_t` in `bms_data.h`). The
`samples` list models the allocated array of length `capacity`. -/
structure bms_sample_buffer where
  samples : List bms_sample
  head : ℕ
  count : ℕ
  capacity : ℕ
deriving DecidableEq

/-- `bms_buf_index` from `bms_data.h`: index of the sample at `offset` from
the head, wrapping around the capacity. -/
def bms_buf_index (buf : bms_sample_buffer) (offset : ℕ) : ℕ :=
  (buf.head + offset) % buf.capacity

/-- Reading `buf->samples[bms_buf_index(buf, offset)]`. -/
def sampleAt (buf : bms_sample_buffer) (offset : ℕ) : bms_sample :=
  buf.samples.getD (bms_buf_index buf offset) bms_sample_zero

/-- Battery limit configuration (`bms_config_t`, fields as initialised for
`g_cfg.battery` in `configuration.c` and read through `g_bms_config` in
`process.c`). -/
structure bms_config where
  cell_v_min : ℚ
  cell_v_max : ℚ
  pack_v_min : ℚ
  pack_v_max : ℚ
  current_min : ℚ
  current_max : ℚ
deriving DecidableEq

/-- One statistics window (`bms_stats_t` in `process.h`). `cell_errors` is the
16-bit violation bitmask. -/
structure bms_stats where
  timestamp : ℕ
  sample_count : ℕ
  cell_v_avg : List ℚ
  cell_v_min : List ℚ
  cell_v_max : List ℚ
  pack_v_avg : ℚ
  pack_v_min : ℚ
  pack_v_max : ℚ
  pack_i_avg : ℚ
  pack_i_min : ℚ
  pack_i_max : ℚ
  cell_errors : ℕ
deriving DecidableEq

/-- The all-zero statistics record (`bms_stats_t st = {0}`). -/
def default_stats : bms_stats :=
  { timestamp := 0, sample_count := 0
    cell_v_avg := List.replicate BMS_NUM_CELLS 0
    cell_v_min := List.replicate BMS_NUM_CELLS 0
    cell_v_max := List.replicate BMS_NUM_CELLS 0
    pack_v_avg := 0, pack_v_min := 0, pack_v_max := 0
    pack_i_avg := 0, pack_i_min := 0, pack_i_max := 0
    cell_errors := 0 }

/-- Body of the per-cell limit loop in `check_limits_sample` (`process.c`
lines 181-191): sets the undervoltage bit `2 i + 1` and the overvoltage bit
`2 i + 2` for cell `i`.  The C cast `(uint16_t)(0x01u << (i * 2 + 1u))` is the
explicit reduction modulo `2 ^ 16`. -/
def cell_limit_step (cfg : bms_config) (s : bms_sample) (f : ℕ) (i : ℕ) : ℕ :=
  let v := s.cell_v.getD i 0
  let f := if v < cfg.cell_v_min then f ||| ((1 <<< (i * 2 + 1)) % 65536) else f
  if v > cfg.cell_v_max then f ||| ((1 <<< (i * 2 + 2)) % 65536) else f

/-- `check_limits_sample` from `process.c`: accumulates the violation bits of
one sample into `flags` (cell loop, then pack undercurrent bit `0x0800` and
overcurrent bit `0x1000`). -/
def check_limits_sample (cfg : bms_config) (s : bms_sample) (flags : ℕ) : ℕ :=
  let flags := (List.range BMS_NUM_CELLS).foldl (cell_limit_step cfg s) flags
  let flags := if s.pack_i < cfg.current_min then flags ||| 0x0800 else flags
  if s.pack_i > cfg.current_max then flags ||| 0x1000 else flags

/-- `init_stats_from_first` from `process.c`: initialise a stats window from
the first sample of the window. -/
def init_stats_from_first (raw_sample : bms_sample) : bms_stats :=
  { timestamp := raw_sample.timestamp
    sample_count := 0
    cell_errors := 0
    cell_v_min := (List.range BMS_NUM_CELLS).map (fun c => raw_sample.cell_v.getD c 0)
    cell_v_max := (List.range BMS_NUM_CELLS).map (fun c => raw_sample.cell_v.getD c 0)
    cell_v_avg := (List.range BMS_NUM_CELLS).map (fun _ => (0 : ℚ))
    pack_v_min := raw_sample.pack_v
    pack_v_max := raw_sample.pack_v
    pack_v_avg := 0
    pack_i_min := raw_sample.pack_i
    pack_i_max := raw_sample.pack_i
    pack_i_avg := 0 }

/-- `accumulate_sample` from `process.c`: add one sample into the running
sums and elementwise extremes, incrementing `sample_count`. -/
def accumulate_sample (raw_sample : bms_sample) (out : bms_stats) : bms_stats :=
  { out with
    cell_v_avg := (List.range BMS_NUM_CELLS).map
      (fun c => out.cell_v_avg.getD c 0 + raw_sample.cell_v.getD c 0)
    cell_v_min := (List.range BMS_NUM_CELLS).map
      (fun c => if raw_sample.cell_v.getD c 0 < out.cell_v_min.getD c 0
                then raw_sample.cell_v.getD c 0 else out.cell_v_min.getD c 0)
    cell_v_max := (List.range BMS_NUM_CELLS).map
      (fun c => if raw_sample.cell_v.getD c 0 > out.cell_v_max.getD c 0
                then raw_sample.cell_v.getD c 0 else out.cell_v_max.getD c 0)
    pack_v_avg := out.pack_v_avg + raw_sample.pack_v
    pack_v_min := if raw_sample.pack_v < out.pack_v_min then raw_sample.pack_v else out.pack_v_min
    pack_v_max := if raw_sample.pack_v > out.pack_v_max then raw_sample.pack_v else out.pack_v_max
    pack_i_avg := out.pack_i_avg + raw_sample.pack_i
    pack_i_min := if raw_sample.pack_i < out.pack_i_min then raw_sample.pack_i else out.pack_i_min
    pack_i_max := if raw_sample.pack_i > out.pack_i_max then raw_sample.pack_i else out.pack_i_max
    sample_count := out.sample_count + 1 }

/-- `calculate_average` from `process.c`: divide the accumulated sums by the
sample count (guarded against `sample_count == 0`). -/
def calculate_average (accumulated_samples : bms_stats) : bms_stats :=
  if accumulated_samples.sample_count = 0 then accumulated_samples
  else
    let inv_n : ℚ := 1 / (accumulated_samples.sample_count : ℚ)
    { accumulated_samples with
      cell_v_avg := (List.range BMS_NUM_CELLS).map
        (fun c => accumulated_samples.cell_v_avg.getD c 0 * inv_n)
      pack_v_avg := accumulated_samples.pack_v_avg * inv_n
      pack_i_avg := accumulated_samples.pack_i_avg * inv_n }

/-- Count of samples per 1 s window (`samples_per_1s` in `bms_compute_stats`). -/
def samples_per_1s : ℕ := 20

/-- Count of samples per 0.2 s window (`samples_per_0_2s` in `bms_compute_stats`). -/
def samples_per_0_2s : ℕ := 4

/-- `BMS_MAX_STATS_WINDOWS` from `process.h`. -/
def BMS_MAX_STATS_WINDOWS : ℕ := 5

/-- The sample-zeroing loop of `bms_compute_stats` (`process.c` lines
110-114 and 155-159): consumed slots are overwritten with zeros. -/
def zero_consumed (buf : bms_sample_buffer) (available : ℕ) : List bms_sample :=
  (List.range available).foldl
    (fun ss i => ss.set (bms_buf_index buf i) bms_sample_zero) buf.samples

/-- Case 1 of `bms_compute_stats` (no violations): a single 1 s window over
all available samples.  The loop body re-clears `st.cell_errors` on every
iteration exactly as the source does. -/
def nominal_window (buf : bms_sample_buffer) (available : ℕ) : bms_stats :=
  let st := init_stats_from_first (sampleAt buf 0)
  let st := (List.range available).foldl
    (fun st i =>
      let st := accumulate_sample (sampleAt buf i) st
      { st with cell_errors := 0 }) st
  let st := calculate_average st
  { st with cell_errors := st.cell_errors ||| 0x0001 }

/-- One 0.2 s window of Case 2 of `bms_compute_stats`, built from the
`samples_per_0_2s` samples starting at `offset`. -/
def fault_window (cfg : bms_config) (buf : bms_sample_buffer) (offset : ℕ) : bms_stats :=
  let st := init_stats_from_first (sampleAt buf offset)
  let st := (List.range samples_per_0_2s).foldl
    (fun st i =>
      let st := accumulate_sample (sampleAt buf (offset + i)) st
      { st with cell_errors := check_limits_sample cfg (sampleAt buf (offset + i)) st.cell_errors }) st
  let st := calculate_average st
  { st with cell_errors := st.cell_errors ||| 0x0001 }

/-- The `while (offset < available_samples_count && windows_created <
BMS_MAX_STATS_WINDOWS)` loop of Case 2 of `bms_compute_stats`.  The loop
counter `windows_created` is represented by the remaining window budget
`fuel = BMS_MAX_STATS_WINDOWS - windows_created`, so that
`windows_created < BMS_MAX_STATS_WINDOWS` is `fuel ≠ 0`. -/
def fault_windows_loop (cfg : bms_config) (buf : bms_sample_buffer) (available : ℕ) :
    ℕ → ℕ → List bms_stats → List bms_stats
  | _offset, 0, acc => acc
  | offset, fuel + 1, acc =>
    if offset < available then
      fault_windows_loop cfg buf available (offset + samples_per_0_2s) fuel
        (acc ++ [fault_window cfg buf offset])
    else acc

/-- `bms_compute_stats` from `process.c`: returns the updated ring buffer,
the list stored in `out_stats` and the C return value.  The global
`g_bms_config` is passed as the `cfg` parameter. -/
def bms_compute_stats (cfg : bms_config) (buf : bms_sample_buffer) :
    bms_sample_buffer × List bms_stats × Bool :=
  if buf.count = 0 then (buf, [], false)
  else if buf.count < samples_per_1s then (buf, [], false)
  else
    let available := min buf.count samples_per_1s
    let flags := (List.range available).foldl
      (fun f i => check_limits_sample cfg (sampleAt buf i) f) 0
    if flags = 0 then
      let st := nominal_window buf available
      ({ samples := zero_consumed buf available
         head := (buf.head + available) % buf.capacity
         count := buf.count - available
         capacity := buf.capacity }, [st], true)
    else
      let ws := fault_windows_loop cfg buf available 0 BMS_MAX_STATS_WINDOWS []
      ({ samples := zero_consumed buf available
         head := (buf.head + available) % buf.capacity
         count := buf.count - available
         capacity := buf.capacity }, ws, decide (0 < ws.length))

/-- The violation predicate of the specification: some cell voltage outside
`[cell_v_min, cell_v_max]`, or the pack current outside
`[current_min, current_max]` (all comparisons strict, as in
`check_limits_sample`). -/
def sample_violates (cfg : bms_config) (s : bms_sample) : Prop :=
  (∃ c ∈ List.range BMS_NUM_CELLS,
      s.cell_v.getD c 0 < cfg.cell_v_min ∨ cfg.cell_v_max < s.cell_v.getD c 0) ∨
    s.pack_i < cfg.current_min ∨ cfg.current_max < s.pack_i

instance (cfg : bms_config) (s : bms_sample) : Decidable (sample_violates cfg s) := by
  unfold sample_violates
  infer_instance

/-- The per-bit meaning of one sample's contribution to the errors bitmap
(spec §4.3 table): bit `2c+1` undervoltage of cell `c`, bit `2c+2`
overvoltage of cell `c`, bit 11 pack under-current, bit 12 pack
over-current. -/
def bit_meaning (cfg : bms_config) (s : bms_sample) (k : ℕ) : Prop :=
  (∃ c ∈ List.range BMS_NUM_CELLS,
      (k = c * 2 + 1 ∧ s.cell_v.getD c 0 < cfg.cell_v_min) ∨
      (k = c * 2 + 2 ∧ cfg.cell_v_max < s.cell_v.getD c 0)) ∨
    (k = 11 ∧ s.pack_i < cfg.current_min) ∨
    (k = 12 ∧ cfg.current_max < s.pack_i)

instance (cfg : bms_config) (s : bms_sample) (k : ℕ) : Decidable (bit_meaning cfg s k) := by
  unfold bit_meaning
  infer_instance

/-- The `j`-th statistics window stored in `out_stats` by a
`bms_compute_stats` call. -/
def emitted_window (cfg : bms_config) (buf : bms_sample_buffer) (j : ℕ) : bms_stats :=
  (bms_compute_stats cfg buf).2.1.getD j default_stats

/-! ### Inter-core queue (`intercore_comm.h` / `intercore_comm.c`) -/

/-- `BMS_QUEUE_SECONDS` from `intercore_comm.h`. -/
def BMS_QUEUE_SECONDS : ℕ := 30

/-- `BMS_QUEUE_RATE_HZ` from `intercore_comm.h`. -/
def BMS_QUEUE_RATE_HZ : ℕ := 20

/-- `BMS_QUEUE_LEN` from `intercore_comm.h`: 30 s × 20 Hz. -/
def BMS_QUEUE_LEN : ℕ := BMS_QUEUE_SECONDS * BMS_QUEUE_RATE_HZ

/-- `uxQueueSpacesAvailable` over the modelled queue contents. -/
def queue_free_slots (l : List bms_sample) : ℕ := BMS_QUEUE_LEN - l.length

/-- `bms_queue_push` from `intercore_comm.c`.  The FreeRTOS queue handle
`g_bms_queue` is an external collaborator: it is modelled from the spec
(§4.2) as a bounded FIFO of capacity `BMS_QUEUE_LEN`; `none` models the NULL
handle before `bms_queue_init`.  Returns the new queue and the C boolean. -/
def bms_queue_push (q : Option (List bms_sample)) (sample : bms_sample) :
    Option (List bms_sample) × Bool :=
  match q with
  | none => (none, false)
  | some l =>
    if 0 < queue_free_slots l then (some (l ++ [sample]), true) else (some l, false)

/-- `bms_queue_pop` from `intercore_comm.c`: returns the new queue and the
popped sample (`none` = returned false). -/
def bms_queue_pop (q : Option (List bms_sample)) :
    Option (List bms_sample) × Option bms_sample :=
  match q with
  | none => (none, none)
  | some [] => (some [], none)
  | some (x :: rest) => (some rest, some x)

/-- Pushing a list of samples in order; the boolean records whether every
push succeeded. -/
def bms_queue_push_list (q : Option (List bms_sample)) :
    List bms_sample → Option (List bms_sample) × Bool
  | [] => (q, true)
  | x :: xs =>
    let r1 := bms_queue_push q x
    let r2 := bms_queue_push_list r1.1 xs
    (r2.1, r1.2 && r2.2)

/-! ### History ring (`stats_history.c`) -/

/-- `BMS_HTTP_SECONDS` from `stats_history.c`. -/
def BMS_HTTP_SECONDS : ℕ := 60

/-- `BMS_MAX_WINDOWS_PER_SEC` from `stats_history.c`. -/
def BMS_MAX_WINDOWS_PER_SEC : ℕ := 4

/-- `BMS_HTTP_HISTORY_CAPACITY` from `stats_history.c`: 60 s × 4 windows/s. -/
def BMS_HTTP_HISTORY_CAPACITY : ℕ := BMS_HTTP_SECONDS * BMS_MAX_WINDOWS_PER_SEC

/-- `BMS_STATS_JSON_MAXLEN` from `stats_history.c`. -/
def BMS_STATS_JSON_MAXLEN : ℕ := 512

/-- `hist_item_t`: `json` models the full `char[512]` storage, `len` the
recorded length. -/
structure hist_item where
  json : List ℕ
  len : ℕ
deriving DecidableEq

/-- `stats_history_buffer_t`.  The C `capacity` field is initialised to
`BMS_HTTP_HISTORY_CAPACITY` and never written, so the constant is used
directly; the spinlock orders the accesses modelled here atomically. -/
structure stats_history_buffer where
  items : Fin BMS_HTTP_HISTORY_CAPACITY → hist_item
  head : ℕ
  count : ℕ

/-- The statically-initialised `s_history_buffer`: zero-filled storage,
`head = 0`, `count = 0`. -/
def hist_empty : stats_history_buffer :=
  { items := fun _ => { json := List.replicate BMS_STATS_JSON_MAXLEN 0, len := 0 }
    head := 0
    count := 0 }

/-- The write slot of the next push: `items[head]` (with `head < capacity`
maintained by the modular increment). -/
def hist_head_slot (hb : stats_history_buffer) : Fin BMS_HTTP_HISTORY_CAPACITY :=
  ⟨hb.head % BMS_HTTP_HISTORY_CAPACITY, Nat.mod_lt _ (by decide)⟩

/-- `bms_stats_hist_push` from `stats_history.c`: `none` models a NULL
`json` pointer.  A payload of length ≥ 512 is truncated to 511 bytes; the
byte after the stored payload is the written NUL terminator, the rest of the
512-byte slot keeps its previous contents (`memcpy` + `json[len] = 0`). -/
def bms_stats_hist_push (hb : stats_history_buffer) (json : Option (List ℕ)) :
    stats_history_buffer :=
  match json with
  | none => hb
  | some p =>
    if p.length = 0 then hb
    else
      let len := if BMS_STATS_JSON_MAXLEN ≤ p.length then BMS_STATS_JSON_MAXLEN - 1 else p.length
      let old := hb.items (hist_head_slot hb)
      let entry : hist_item := { json := p.take len ++ [0] ++ old.json.drop (len + 1), len := len }
      { items := Function.update hb.items (hist_head_slot hb) entry
        head := (hb.head + 1) % BMS_HTTP_HISTORY_CAPACITY
        count := if hb.count < BMS_HTTP_HISTORY_CAPACITY then hb.count + 1 else hb.count }

/-- The slot read for render entry `i`: `(start + i) % capacity` with
`start = (head + capacity - count) % capacity`. -/
def hist_slot_at (hb : stats_history_buffer) (i : ℕ) : Fin BMS_HTTP_HISTORY_CAPACITY :=
  ⟨((hb.head + BMS_HTTP_HISTORY_CAPACITY - hb.count) % BMS_HTTP_HISTORY_CAPACITY + i) %
      BMS_HTTP_HISTORY_CAPACITY,
    Nat.mod_lt _ (by decide)⟩

/-- The sequence of per-entry payloads streamed by
`bms_stats_hist_send_as_json_array` between `[` and `]` (the HTTP chunk
transport is the external `httpd_resp_send_chunk`): entry `i` is read from
slot `(start + i) % capacity` with its length clamped below 512. -/
def hist_render_entries (hb : stats_history_buffer) : List (List ℕ) :=
  (List.range hb.count).map (fun i =>
    let it := hb.items (hist_slot_at hb i)
    let tmplen := if BMS_STATS_JSON_MAXLEN ≤ it.len then BMS_STATS_JSON_MAXLEN - 1 else it.len
    it.json.take tmplen)

/-- The invariant of claim C10 over every stored slot: recorded length at
most 511, full 512-byte storage, and a NUL byte at position `len`. -/
def hist_wf (hb : stats_history_buffer) : Prop :=
  ∀ i : Fin BMS_HTTP_HISTORY_CAPACITY,
    (hb.items i).len ≤ 511 ∧ (hb.items i).json.length = 512 ∧
      (hb.items i).json.getD (hb.items i).len 0 = 0

/-- Pushing a list of payloads in order. -/
def hist_push_all (hb : stats_history_buffer) (ps : List (List ℕ)) : stats_history_buffer :=
  ps.foldl (fun hb p => bms_stats_hist_push hb (some p)) hb

/-! ### Application state machine (`appsm.c`) and slow-path system state -/

/-- `app_state_t` from `appsm.c`. -/
inductive app_state
  | undefined
  | init
  | processing
  | config
deriving DecidableEq

/-- `appsm_t` from `appsm.c`. -/
structure appsm_t where
  prev_state : app_state
  curr_state : app_state
  next_state : app_state
deriving DecidableEq

/-- The NVS namespace `storage` as used through
`nvs_open`/`nvs_get_u8`/`nvs_set_u8`/`nvs_commit`: `open_ok` is the outcome
of `nvs_open` (external), `config_mode` the stored key value (`none` when
the key is absent, making `nvs_get_u8` fail). -/
structure nvs_store where
  open_ok : Bool
  config_mode : Option ℕ
deriving DecidableEq

/-- `check_config_mode_flag` from `appsm.c`: reads the flag and clears it
when it was read as 1; returns the C boolean and the updated store. -/
def check_config_mode_flag (nvs : nvs_store) : Bool × nvs_store :=
  if nvs.open_ok = false then (false, nvs)
  else
    match nvs.config_mode with
    | some 1 => (true, { nvs with config_mode := some 0 })
    | _ => (false, nvs)

/-- `MAX_SAMPLES_PER_POP` from `appsm.c`: the staging ring capacity. -/
def MAX_SAMPLES_PER_POP : ℕ := 100

/-- Combined slow-path state: the state-machine tuple `s_appsm`, the staging
ring `buf`, the NVS store, the inter-core queue, the history ring, the list
of payloads handed to `bms_mqtt_publish_qos0` (fire-and-forget: outcomes do
not influence control flow), and the outcome the external collaborators
would give `initialization_exec`. -/
structure sys_state where
  sm : appsm_t
  nvs : nvs_store
  staging : bms_sample_buffer
  queue : Option (List bms_sample)
  history : stats_history_buffer
  published : List (List ℕ)
  init_ok : Bool

/-- The sample-pop loop at the top of `state_processing_handler` (`appsm.c`):
fill the staging ring from the queue list while `buf.count < buf.capacity`,
stopping when the queue is empty. -/
def drain_loop (staging : bms_sample_buffer) :
    List bms_sample → bms_sample_buffer × List bms_sample
  | [] => (staging, [])
  | x :: rest =>
    if staging.count < staging.capacity then
      drain_loop
        { staging with
          samples := staging.samples.set (bms_buf_index staging staging.count) x
          count := staging.count + 1 } rest
    else (staging, x :: rest)

/-- The drain step over the whole system state (`bms_queue_pop` on a NULL
handle returns false at once, leaving everything unchanged). -/
def drain_queue (s : sys_state) : sys_state :=
  match s.queue with
  | none => s
  | some l =>
    let r := drain_loop s.staging l
    { s with staging := r.1, queue := some r.2 }

/-- Modelled from the spec: `remove_processed_samples` is declared in
`process.h` and called by `state_processing_handler` in `appsm.c`, but its
definition is not among the sources.  Per the spec (§4.4, PROCESSING):
"staging head/count already advanced by the aggregator", so the removal
step leaves the staging ring unchanged. -/
def remove_processed_samples (buf : bms_sample_buffer) (_sample_count : ℤ) :
    bms_sample_buffer := buf

/-- The per-window publish loop of `state_processing_handler` (`appsm.c`):
serialize each window (`bms_stats_to_json` is passed abstractly as `ser`
since its `snprintf` float formatting is a byte-level detail; `none` models
a negative return), publish via MQTT QoS 0, and push the payload into the
history ring regardless of the publish outcome.  A serialization failure
breaks the loop. -/
def publish_windows (ser : bms_stats → Option (List ℕ)) :
    List bms_stats → stats_history_buffer × List (List ℕ) →
      stats_history_buffer × List (List ℕ)
  | [], hp => hp
  | w :: ws, hp =>
    match ser w with
    | none => hp
    | some payload =>
      publish_windows ser ws
        (bms_stats_hist_push hp.1 (some payload), hp.2 ++ [payload])

/-- The `while (buf.count > 0)` aggregation loop of
`state_processing_handler` (`appsm.c`).  The caller binds the aggregator
result to `int used_samples`; with the `bool`-returning `bms_compute_stats`
of `process.c`, `used_samples <= 0` is exactly a `false` return and a `true`
return converts to `used_samples = 1`. -/
def processing_loop (cfg : bms_config) (ser : bms_stats → Option (List ℕ))
    (s : sys_state) : sys_state :=
  if 0 < s.staging.count then
    let r := bms_compute_stats cfg s.staging
    if h : r.2.2 then
      let hp := publish_windows ser r.2.1 (s.history, s.published)
      processing_loop cfg ser
        { s with staging := remove_processed_samples r.1 1
                 history := hp.1
                 published := hp.2 }
    else s
  else s
termination_by s.staging.count
decreasing_by
  simp only [remove_processed_samples]
  have hok : (bms_compute_stats cfg s.staging).2.2 = true := h
  show (bms_compute_stats cfg s.staging).1.count < s.staging.count
  revert hok
  simp only [bms_compute_stats, samples_per_1s]
  split_ifs with h0 h1 hf <;> intro hok <;> simp_all <;> omega

/-- Modelled from the spec (refinement reference for the frame property):
the staging ring of a PROCESSING iteration evolves as if only the
aggregator were applied to it repeatedly until it refuses. -/
def aggregate_only (cfg : bms_config) (buf : bms_sample_buffer) : bms_sample_buffer :=
  let r := bms_compute_stats cfg buf
  if h : r.2.2 then aggregate_only cfg r.1 else buf
termination_by buf.count
decreasing_by
  have hok : (bms_compute_stats cfg buf).2.2 = true := h
  show (bms_compute_stats cfg buf).1.count < buf.count
  revert hok
  simp only [bms_compute_stats, samples_per_1s]
  split_ifs with h0 h1 hf <;> intro hok <;> simp_all <;> omega

/-- `state_processing_handler` from `appsm.c`: check/clear the config-mode
flag (early return to CONFIG), otherwise drain the queue into the staging
ring and run the aggregation/publish loop. -/
def state_processing_handler (cfg : bms_config) (ser : bms_stats → Option (List ℕ))
    (s : sys_state) : app_state × sys_state :=
  let r := check_config_mode_flag s.nvs
  let s := { s with nvs := r.2 }
  if r.1 then (.config, s)
  else (.processing, processing_loop cfg ser (drain_queue s))

/-- `state_init_handler` from `appsm.c`: `initialization_exec` succeeds or
fails according to the external collaborators (`init_ok`); success creates
the inter-core queue (`bms_queue_init`). -/
def state_init_handler (s : sys_state) : app_state × sys_state :=
  if s.init_ok then (.processing, { s with queue := some [] })
  else (.config, s)

/-- `state_config_handler` from `appsm.c`: sleep one strobe period and stay
in CONFIG. -/
def state_config_handler (s : sys_state) : app_state × sys_state :=
  (.config, s)

/-- `state_input_handler` from `appsm.c` (entry actions, run when
`prev_state ≠ curr_state`).  Entering PROCESSING allocates the 100-slot
staging ring (`malloc`; the unread fresh storage is modelled zero-filled,
`count = 0` guards it).  The INIT entry (SPIFFS mount and
`configuration_load` into the `g_cfg` singleton) and the CONFIG entry
(`fast_core_tasks_delete`, feeder delete, `bms_wdt_deinit` — see the
Fast-Core step relation below) act on external collaborators. -/
def state_input_handler (s : sys_state) : sys_state :=
  if s.sm.prev_state ≠ s.sm.curr_state then
    match s.sm.curr_state with
    | .init => s
    | .processing =>
      { s with staging :=
          { samples := List.replicate MAX_SAMPLES_PER_POP bms_sample_zero
            head := 0
            count := 0
            capacity := MAX_SAMPLES_PER_POP } }
    | .config => s
    | .undefined => s
  else s

/-- `state_output_handler` from `appsm.c` (exit actions, run when
`next_state ≠ curr_state`): leaving PROCESSING frees the staging storage
(`free(buf.samples); buf.samples = NULL`); leaving INIT spawns the slow-core
feeder (external task creation). -/
def state_output_handler (next : app_state) (s : sys_state) : sys_state :=
  if next ≠ s.sm.curr_state then
    match s.sm.curr_state with
    | .init => s
    | .processing => { s with staging := { s.staging with samples := [] } }
    | .config => s
    | .undefined => s
  else s

/-- `app_states_exec` from `appsm.c`: one full state-machine step — input
handler, state body (the `default` case leaves `next_state` unchanged),
output handler, then the shift `prev := curr; curr := next`. -/
def app_states_exec (cfg : bms_config) (ser : bms_stats → Option (List ℕ))
    (s : sys_state) : sys_state :=
  let s := state_input_handler s
  let r :=
    match s.sm.curr_state with
    | .init => state_init_handler s
    | .processing => state_processing_handler cfg ser s
    | .config => state_config_handler s
    | .undefined => (s.sm.next_state, s)
  let next := r.1
  let s := { r.2 with sm := { r.2.sm with next_state := next } }
  let s := state_output_handler next s
  { s with sm := { prev_state := s.sm.curr_state, curr_state := next, next_state := next } }

/-! ### HTTP configuration save (`http_server.c`) -/

/-- `wifi_cfg_t` string fields of the configuration singleton. -/
structure wifi_cfg where
  ssid : List Char
  pass : List Char
  static_ip : List Char
  gateway : List Char
  netmask : List Char
deriving DecidableEq

/-- `mqtt_cfg_t`. -/
structure mqtt_cfg where
  uri : List Char
deriving DecidableEq

/-- `configuration_t` from `configuration.h`: the `g_cfg` singleton. -/
structure configuration_t where
  wifi : wifi_cfg
  mqtt : mqtt_cfg
  battery : bms_config
deriving DecidableEq

/-- The parsed POST parameters of `/bms/config/save`: the outcomes of the
`parse_post_param` calls in `h_config_save` (`none` = key absent from the
body).  Battery fields carry the numeric value of `atof(value)`. -/
structure post_params where
  wifi_ssid : Option (List Char)
  wifi_static_ip : Option (List Char)
  wifi_gateway : Option (List Char)
  wifi_netmask : Option (List Char)
  wifi_pass : Option (List Char)
  mqtt_uri : Option (List Char)
  cell_v_min : Option ℚ
  cell_v_max : Option ℚ
  pack_v_min : Option ℚ
  pack_v_max : Option ℚ
  current_min : Option ℚ
  current_max : Option ℚ
deriving DecidableEq

/-- Split a character list at the dots (helper for the IPv4 parser). -/
def split_dots : List Char → List (List Char)
  | [] => [[]]
  | c :: cs =>
    if c = '.' then [] :: split_dots cs
    else
      match split_dots cs with
      | [] => [[c]]
      | g :: gs => (c :: g) :: gs

/-- Decimal value of a digit group. -/
def group_value (g : List Char) : ℕ :=
  g.foldl (fun acc c => acc * 10 + (c.toNat - 48)) 0

/-- Modelled from the spec: `is_valid_ip` in `http_server.c` delegates to
lwIP's `inet_pton(AF_INET, ...)`, which is not among the sources; spec §6
prescribes a "strict IPv4 parser".  Modelled as: exactly four dot-separated
groups of one to three decimal digits, each of value at most 255 (and, as
in the source, an empty string is invalid). -/
def is_valid_ip (ip : List Char) : Bool :=
  if ip.length = 0 then false
  else
    let groups := split_dots ip
    decide (groups.length = 4) &&
      groups.all (fun g =>
        decide (1 ≤ g.length) && decide (g.length ≤ 3) &&
        g.all Char.isDigit && decide (group_value g ≤ 255))

/-- `roundf(atof(value) * 100.0f) / 100.0f` over exact rationals. -/
def round2 (q : ℚ) : ℚ := ((round (q * 100) : ℤ) : ℚ) / 100

/-- Outcome of `h_config_save`. -/
inductive save_result
  | error_modal
  | save_failed
  | saved_restart
deriving DecidableEq

/-- Tail of `h_config_save` after the IP-format fields: password (only if
non-empty), MQTT URI, battery floats rounded to 2 decimals, then
`configuration_save` (external outcome `save_ok`), then clearing the
`config_mode` flag, then the success response and scheduled restart.
Returns (response, configuration, NVS, persisted?). -/
def config_save_rest (p : post_params) (cfg : configuration_t) (nvs : nvs_store)
    (save_ok : Bool) : save_result × configuration_t × nvs_store × Bool :=
  let cfg := match p.wifi_pass with
    | some v => if 0 < v.length then { cfg with wifi.pass := v } else cfg
    | none => cfg
  let cfg := match p.mqtt_uri with
    | some v => { cfg with mqtt.uri := v }
    | none => cfg
  let cfg := match p.cell_v_min with
    | some q => { cfg with battery.cell_v_min := round2 q }
    | none => cfg
  let cfg := match p.cell_v_max with
    | some q => { cfg with battery.cell_v_max := round2 q }
    | none => cfg
  let cfg := match p.pack_v_min with
    | some q => { cfg with battery.pack_v_min := round2 q }
    | none => cfg
  let cfg := match p.pack_v_max with
    | some q => { cfg with battery.pack_v_max := round2 q }
    | none => cfg
  let cfg := match p.current_min with
    | some q => { cfg with battery.current_min := round2 q }
    | none => cfg
  let cfg := match p.current_max with
    | some q => { cfg with battery.current_max := round2 q }
    | none => cfg
  if save_ok = false then (.save_failed, cfg, nvs, false)
  else
    let nvs := if nvs.open_ok then { nvs with config_mode := some 0 } else nvs
    (.saved_restart, cfg, nvs, true)

/-- `wifi_netmask` stage of `h_config_save`: validate if present and
non-empty, then store. -/
def config_save_netmask (p : post_params) (cfg : configuration_t) (nvs : nvs_store)
    (save_ok : Bool) : save_result × configuration_t × nvs_store × Bool :=
  match p.wifi_netmask with
  | some v =>
    if 0 < v.length ∧ is_valid_ip v = false then (.error_modal, cfg, nvs, false)
    else config_save_rest p { cfg with wifi.netmask := v } nvs save_ok
  | none => config_save_rest p cfg nvs save_ok

/-- `wifi_gateway` stage of `h_config_save`. -/
def config_save_gateway (p : post_params) (cfg : configuration_t) (nvs : nvs_store)
    (save_ok : Bool) : save_result × configuration_t × nvs_store × Bool :=
  match p.wifi_gateway with
  | some v =>
    if 0 < v.length ∧ is_valid_ip v = false then (.error_modal, cfg, nvs, false)
    else config_save_netmask p { cfg with wifi.gateway := v } nvs save_ok
  | none => config_save_netmask p cfg nvs save_ok

/-- `h_config_save` from `http_server.c`, after body reception and
URL-decoding (both external byte-level transport): `wifi_ssid` is stored
first, then the three IP-format fields are validated in order
(static_ip, gateway, netmask) with an early error-modal return, then the
remaining fields, persistence and flag clearing (`config_save_rest`). -/
def h_config_save (p : post_params) (cfg : configuration_t) (nvs : nvs_store)
    (save_ok : Bool) : save_result × configuration_t × nvs_store × Bool :=
  let cfg := match p.wifi_ssid with
    | some v => { cfg with wifi.ssid := v }
    | none => cfg
  match p.wifi_static_ip with
  | some v =>
    if 0 < v.length ∧ is_valid_ip v = false then (.error_modal, cfg, nvs, false)
    else config_save_gateway p { cfg with wifi.static_ip := v } nvs save_ok
  | none => config_save_gateway p cfg nvs save_ok

/-! ### Fast-Core watchdog latch (`tasksFC.c`) -/

/-- The module statics of `tasksFC.c`: `s_allow_feeding` and
`s_should_exit`. -/
structure fc_state where
  allow_feeding : Bool
  should_exit : Bool
deriving DecidableEq

/-- The source-level events that touch the Fast-Core flags. -/
inductive fc_label
  | queue_full_trip
  | rt_overrun_trip
  | sampler_iter
  | feeder_iter
  | delete_tasks
deriving DecidableEq

/-- Labelled step relation transcribing the flag writes in `tasksFC.c`:
`queue_full_trip` is a `fast_core_task` iteration finding
`bms_queue_free_slots() == 0` (lines 165-168), `rt_overrun_trip` an
iteration exceeding `FAST_CORE_PERIOD_MS` (lines 184-190); both set
`s_allow_feeding = false`.  `sampler_iter` / `feeder_iter` are iterations
that leave the flags unchanged (the feeder feeds only when
`s_allow_feeding`).  The task loops run only while `!s_should_exit`.
`delete_tasks` is `fast_core_tasks_delete` (lines 97-128, called on CONFIG
entry): it sets `s_should_exit = true`, waits for / force-deletes the
tasks, and finally resets `s_allow_feeding = true; s_should_exit = false`
("Reset flags for potential restart"). -/
inductive fc_step : fc_label → fc_state → fc_state → Prop
  | queue_full_trip (s : fc_state) (h : s.should_exit = false) :
      fc_step .queue_full_trip s { s with allow_feeding := false }
  | rt_overrun_trip (s : fc_state) (h : s.should_exit = false) :
      fc_step .rt_overrun_trip s { s with allow_feeding := false }
  | sampler_iter (s : fc_state) (h : s.should_exit = false) :
      fc_step .sampler_iter s s
  | feeder_iter (s : fc_state) (h : s.should_exit = false) :
      fc_step .feeder_iter s s
  | delete_tasks (s : fc_state) :
      fc_step .delete_tasks s { allow_feeding := true, should_exit := false }

/-- The static initialisers of `tasksFC.c`: feeding allowed, no exit
requested. -/
def fc_init : fc_state := { allow_feeding := true, should_exit := false }

/-- States reachable from the initial state within one process run. -/
inductive fc_reachable : fc_state → Prop
  | refl : fc_reachable fc_init
  | step {s t : fc_state} (l : fc_label) : fc_reachable s → fc_step l s t → fc_reachable t

/-! ### Concrete fixtures used by the witness theorems -/

/-- A concrete limit configuration (integer-valued for kernel evaluation). -/
def wcfg : bms_config :=
  { cell_v_min := 1, cell_v_max := 2, pack_v_min := 1, pack_v_max := 10
    current_min := -5, current_max := 5 }

/-- A sample inside all `wcfg` limits. -/
def wsample_ok : bms_sample :=
  { cell_v := [1, 1, 1, 1, 1], pack_v := 5, pack_i := 0, timestamp := 3 }

/-- A sample with cell 0 above `wcfg.cell_v_max`. -/
def wsample_bad : bms_sample :=
  { cell_v := [4, 1, 1, 1, 1], pack_v := 8, pack_i := 0, timestamp := 9 }

/-- A staging ring with fewer than 20 staged samples. -/
def wbuf_small : bms_sample_buffer :=
  { samples := List.replicate 25 wsample_ok, head := 2, count := 5, capacity := 25 }

/-- A staging ring with 20 in-limit samples. -/
def wbuf_nominal : bms_sample_buffer :=
  { samples := List.replicate 20 wsample_ok, head := 0, count := 20, capacity := 20 }

/-- A staging ring whose first staged sample violates the limits. -/
def wbuf_fault : bms_sample_buffer :=
  { samples := wsample_bad :: List.replicate 19 wsample_ok, head := 0, count := 20, capacity := 20 }

/-- A trivial serializer stand-in for `bms_stats_to_json`. -/
def wser : bms_stats → Option (List ℕ) := fun _ => some [123]

/-- A concrete slow-path state: steady PROCESSING with the config-mode flag
set in NVS. -/
def wsys : sys_state :=
  { sm := { prev_state := .processing, curr_state := .processing, next_state := .processing }
    nvs := { open_ok := true, config_mode := some 1 }
    staging := { samples := [], head := 0, count := 0, capacity := MAX_SAMPLES_PER_POP }
    queue := some []
    history := hist_empty
    published := []
    init_ok := true }

/-- The same slow-path state with the config-mode flag clear. -/
def wsys_noflag : sys_state :=
  { wsys with nvs := { open_ok := true, config_mode := some 0 } }

/-- A concrete configuration singleton. -/
def wcfg_t : configuration_t :=
  { wifi := { ssid := [], pass := [], static_ip := [], gateway := [], netmask := [] }
    mqtt := { uri := [] }
    battery := wcfg }

/-- A concrete NVS store with the config-mode flag set. -/
def wnvs : nvs_store := { open_ok := true, config_mode := some 1 }

/-- A save request carrying a new SSID together with a malformed static IP. -/
def wp_bad : post_params :=
  { wifi_ssid := some ['e', 'v', 'i', 'l']
    wifi_static_ip := some ['9', '9', '9', '.', '1', '.', '1', '.', '1']
    wifi_gateway := none
    wifi_netmask := none
    wifi_pass := none
    mqtt_uri := none
    cell_v_min := none
    cell_v_max := none
    pack_v_min := none
    pack_v_max := none
    current_min := none
    current_max := none }

section AggregatorLemmas

variable (cfg : bms_config) (s : bms_sample)

lemma lor_eq_zero_iff (x y : ℕ) : x ||| y = 0 ↔ x = 0 ∧ y = 0 := by
  constructor
  · intro h
    have hb : ∀ k, x.testBit k = false ∧ y.testBit k = false := by
      intro k
      have hk := congrArg (fun n => Nat.testBit n k) h
      simp only [Nat.testBit_lor, Nat.zero_testBit, Bool.or_eq_false_iff] at hk
      exact hk
    constructor
    · exact Nat.eq_of_testBit_eq fun k => by simp [(hb k).1]
    · exact Nat.eq_of_testBit_eq fun k => by simp [(hb k).2]
  · rintro ⟨rfl, rfl⟩
    rfl

lemma shiftLeft_mod_eq (k : ℕ) (hk : k < 16) : ((1 <<< k) % 65536 : ℕ) = 2 ^ k := by
  rw [Nat.shiftLeft_eq, one_mul]
  exact Nat.mod_eq_of_lt (by
    calc (2 : ℕ) ^ k < 2 ^ 16 := Nat.pow_lt_pow_right (by norm_num) hk
      _ = 65536 := by norm_num)

lemma cell_limit_step_lor (f i : ℕ) :
    cell_limit_step cfg s f i = f ||| cell_limit_step cfg s 0 i := by
  simp only [cell_limit_step]
  split_ifs <;> simp [Nat.lor_assoc]

lemma cell_fold_lor :
    ∀ (l : List ℕ) (f : ℕ),
      l.foldl (cell_limit_step cfg s) f = f ||| l.foldl (cell_limit_step cfg s) 0 := by
  intro l
  induction l with
  | nil => intro f; simp
  | cons a l ih =>
    intro f
    simp only [List.foldl_cons]
    rw [ih (cell_limit_step cfg s f a), ih (cell_limit_step cfg s 0 a),
      cell_limit_step_lor, Nat.lor_assoc]

lemma check_limits_sample_lor (f : ℕ) :
    check_limits_sample cfg s f = f ||| check_limits_sample cfg s 0 := by
  simp only [check_limits_sample]
  rw [cell_fold_lor cfg s _ f]
  split_ifs <;> simp [Nat.lor_assoc]

/-- Accumulating limit checks over a sequence of samples decomposes as a
bitwise or with the accumulator. -/
lemma check_fold_lor (samp : ℕ → bms_sample) :
    ∀ (l : List ℕ) (f : ℕ),
      l.foldl (fun f i => check_limits_sample cfg (samp i) f) f =
        f ||| l.foldl (fun f i => check_limits_sample cfg (samp i) f) 0 := by
  intro l
  induction l with
  | nil => intro f; simp
  | cons a l ih =>
    intro f
    simp only [List.foldl_cons]
    rw [ih (check_limits_sample cfg (samp a) f), ih (check_limits_sample cfg (samp a) 0),
      check_limits_sample_lor, Nat.lor_assoc]

lemma cell_limit_step_zero_iff (f i : ℕ) (hi : i < BMS_NUM_CELLS) :
    cell_limit_step cfg s f i = 0 ↔
      f = 0 ∧ ¬(s.cell_v.getD i 0 < cfg.cell_v_min) ∧ ¬(cfg.cell_v_max < s.cell_v.getD i 0) := by
  have h1 : ((1 <<< (i * 2 + 1)) % 65536 : ℕ) ≠ 0 := by
    rw [shiftLeft_mod_eq _ (by simp only [BMS_NUM_CELLS] at hi; omega)]
    positivity
  have h2 : ((1 <<< (i * 2 + 2)) % 65536 : ℕ) ≠ 0 := by
    rw [shiftLeft_mod_eq _ (by simp only [BMS_NUM_CELLS] at hi; omega)]
    positivity
  simp only [cell_limit_step]
  split_ifs with hlt hgt hgt <;> simp_all [lor_eq_zero_iff, gt_iff_lt]

lemma cell_fold_zero_iff :
    ∀ (l : List ℕ), (∀ i ∈ l, i < BMS_NUM_CELLS) → ∀ f : ℕ,
      (l.foldl (cell_limit_step cfg s) f = 0 ↔
        f = 0 ∧ ∀ i ∈ l,
          ¬(s.cell_v.getD i 0 < cfg.cell_v_min) ∧ ¬(cfg.cell_v_max < s.cell_v.getD i 0)) := by
  intro l
  induction l with
  | nil => intro _ f; simp
  | cons a l ih =>
    intro hmem f
    simp only [List.foldl_cons]
    rw [ih (fun i hi => hmem i (List.mem_cons_of_mem a hi)),
      cell_limit_step_zero_iff cfg s f a (hmem a (List.mem_cons_self a l))]
    simp only [List.mem_cons]
    constructor
    · rintro ⟨⟨hf, h1, h2⟩, hrest⟩
      exact ⟨hf, fun i hi => hi.elim (fun he => he ▸ ⟨h1, h2⟩) (hrest i)⟩
    · rintro ⟨hf, hall⟩
      exact ⟨⟨hf, (hall a (Or.inl rfl)).1, (hall a (Or.inl rfl)).2⟩,
        fun i hi => hall i (Or.inr hi)⟩

lemma check_limits_zero_iff (f : ℕ) :
    check_limits_sample cfg s f = 0 ↔ f = 0 ∧ ¬ sample_violates cfg s := by
  simp only [check_limits_sample]
  have hcell := cell_fold_zero_iff cfg s (List.range BMS_NUM_CELLS)
    (fun i hi => List.mem_range.mp hi) f
  simp only [sample_violates, not_or, not_exists]
  split_ifs with hplo hphi hphi <;>
    simp_all [lor_eq_zero_iff]

/-- A fold of `check_limits_sample` over samples is zero exactly when no
sample violates the configured limits. -/
lemma check_fold_zero_iff (samp : ℕ → bms_sample) :
    ∀ (l : List ℕ),
      (l.foldl (fun f i => check_limits_sample cfg (samp i) f) 0 = 0 ↔
        ∀ i ∈ l, ¬ sample_violates cfg (samp i)) := by
  intro l
  induction l with
  | nil => simp
  | cons a l ih =>
    simp only [List.foldl_cons]
    rw [check_fold_lor cfg (samp) l (check_limits_sample cfg (samp a) 0),
      lor_eq_zero_iff, ih, check_limits_zero_iff]
    simp only [List.mem_cons]
    constructor
    · rintro ⟨⟨-, ha⟩, hrest⟩
      exact fun i hi => hi.elim (fun he => he ▸ ha) (hrest i)
    · intro hall
      refine ⟨⟨by trivial, hall a (Or.inl rfl)⟩, fun i hi => hall i (Or.inr hi)⟩

end AggregatorLemmas

section WindowLemmas

variable (cfg : bms_config) (buf : bms_sample_buffer)

lemma foldl_sample_count (g : bms_stats → ℕ → bms_stats)
    (hg : ∀ st i, (g st i).sample_count = st.sample_count + 1) :
    ∀ (l : List ℕ) (st : bms_stats),
      (l.foldl g st).sample_count = st.sample_count + l.length := by
  intro l
  induction l with
  | nil => intro st; simp
  | cons a l ih =>
    intro st
    simp only [List.foldl_cons, List.length_cons, ih, hg]
    omega

lemma calculate_average_sample_count (st : bms_stats) :
    (calculate_average st).sample_count = st.sample_count := by
  simp only [calculate_average]
  split_ifs <;> rfl

lemma calculate_average_cell_errors (st : bms_stats) :
    (calculate_average st).cell_errors = st.cell_errors := by
  simp only [calculate_average]
  split_ifs <;> rfl

lemma nominal_window_sample_count (a : ℕ) :
    (nominal_window buf a).sample_count = a := by
  simp only [nominal_window]
  rw [calculate_average_sample_count,
    foldl_sample_count (fun st i => _) (fun st i => rfl), List.length_range]
  simp [init_stats_from_first]

lemma nominal_fold_cell_errors :
    ∀ (l : List ℕ) (st : bms_stats), st.cell_errors = 0 →
      ((l.foldl (fun st i =>
        let st := accumulate_sample (sampleAt buf i) st
        { st with cell_errors := 0 }) st).cell_errors) = 0 := by
  intro l
  induction l with
  | nil => intro st h; simpa using h
  | cons a l ih => intro st _; exact ih _ rfl

lemma nominal_window_cell_errors (a : ℕ) :
    (nominal_window buf a).cell_errors = 1 := by
  simp only [nominal_window]
  rw [calculate_average_cell_errors, nominal_fold_cell_errors buf _ _ rfl]
  simp

lemma fault_window_sample_count (offset : ℕ) :
    (fault_window cfg buf offset).sample_count = samples_per_0_2s := by
  simp only [fault_window]
  rw [calculate_average_sample_count,
    foldl_sample_count (fun st i => _) (fun st i => rfl), List.length_range]
  simp [init_stats_from_first]

lemma fault_fold_cell_errors (offset : ℕ) :
    ∀ (l : List ℕ) (st : bms_stats),
      ((l.foldl (fun st i =>
          let st := accumulate_sample (sampleAt buf (offset + i)) st
          { st with cell_errors :=
              check_limits_sample cfg (sampleAt buf (offset + i)) st.cell_errors }) st).cell_errors) =
        l.foldl (fun f i => check_limits_sample cfg (sampleAt buf (offset + i)) f) st.cell_errors := by
  intro l
  induction l with
  | nil => intro st; rfl
  | cons a l ih => intro st; simp only [List.foldl_cons]; rw [ih]; rfl

lemma fault_window_cell_errors (offset : ℕ) :
    (fault_window cfg buf offset).cell_errors =
      ((List.range samples_per_0_2s).foldl
        (fun f i => check_limits_sample cfg (sampleAt buf (offset + i)) f) 0) ||| 1 := by
  simp only [fault_window]
  rw [calculate_average_cell_errors, fault_fold_cell_errors]
  rfl

lemma fault_windows_loop_unroll :
    fault_windows_loop cfg buf samples_per_1s 0 BMS_MAX_STATS_WINDOWS [] =
      [fault_window cfg buf 0, fault_window cfg buf 4, fault_window cfg buf 8,
       fault_window cfg buf 12, fault_window cfg buf 16] := by
  norm_num [fault_windows_loop, samples_per_0_2s, samples_per_1s, BMS_MAX_STATS_WINDOWS]

/-- The consumed-buffer value shared by both branches of `bms_compute_stats`. -/
lemma bms_compute_stats_small (h : buf.count < samples_per_1s) :
    bms_compute_stats cfg buf = (buf, [], false) := by
  by_cases h0 : buf.count = 0
  · simp [bms_compute_stats, h0]
  · simp only [bms_compute_stats]
    rw [if_neg h0, if_pos h]

lemma bms_compute_stats_nominal (h : samples_per_1s ≤ buf.count)
    (hv : ∀ i ∈ List.range samples_per_1s, ¬ sample_violates cfg (sampleAt buf i)) :
    bms_compute_stats cfg buf =
      ({ samples := zero_consumed buf samples_per_1s
         head := (buf.head + samples_per_1s) % buf.capacity
         count := buf.count - samples_per_1s
         capacity := buf.capacity },
       [nominal_window buf samples_per_1s], true) := by
  have h20 : (20 : ℕ) ≤ buf.count := h
  have hmin : min buf.count samples_per_1s = samples_per_1s := by
    simp only [samples_per_1s] at *
    omega
  have hflags : (List.range samples_per_1s).foldl
      (fun f i => check_limits_sample cfg (sampleAt buf i) f) 0 = 0 :=
    (check_fold_zero_iff cfg (sampleAt buf) (List.range samples_per_1s)).mpr hv
  simp only [bms_compute_stats, hmin]
  rw [if_neg (by simp only [samples_per_1s] at *; omega),
    if_neg (by simp only [samples_per_1s] at *; omega), if_pos hflags]

lemma bms_compute_stats_fault (h : samples_per_1s ≤ buf.count)
    (hv : ∃ i ∈ List.range samples_per_1s, sample_violates cfg (sampleAt buf i)) :
    bms_compute_stats cfg buf =
      ({ samples := zero_consumed buf samples_per_1s
         head := (buf.head + samples_per_1s) % buf.capacity
         count := buf.count - samples_per_1s
         capacity := buf.capacity },
       [fault_window cfg buf 0, fault_window cfg buf 4, fault_window cfg buf 8,
        fault_window cfg buf 12, fault_window cfg buf 16], true) := by
  have hmin : min buf.count samples_per_1s = samples_per_1s := by
    simp only [samples_per_1s] at *
    omega
  have hflags : (List.range samples_per_1s).foldl
      (fun f i => check_limits_sample cfg (sampleAt buf i) f) 0 ≠ 0 := by
    rw [ne_eq, check_fold_zero_iff cfg (sampleAt buf) (List.range samples_per_1s)]
    push_neg
    obtain ⟨i, hi, hvi⟩ := hv
    exact ⟨i, hi, hvi⟩
  simp only [bms_compute_stats, hmin]
  rw [if_neg (by simp only [samples_per_1s] at *; omega),
    if_neg (by simp only [samples_per_1s] at *; omega), if_neg hflags,
    fault_windows_loop_unroll]
  simp

end WindowLemmas

section ErrorsBitmapLemmas

variable (cfg : bms_config) (s : bms_sample)

lemma testBit_two_pow_decide (m k : ℕ) : ((2 : ℕ) ^ m).testBit k = decide (m = k) := by
  rcases eq_or_ne m k with rfl | h
  · simp [Nat.testBit_two_pow_self]
  · simp [Nat.testBit_two_pow_of_ne h, h]

lemma testBit_or_pow (x m k : ℕ) :
    ((x ||| 2 ^ m).testBit k = true) ↔ (x.testBit k = true ∨ k = m) := by
  rw [Nat.testBit_lor, Bool.or_eq_true, testBit_two_pow_decide, decide_eq_true_eq]
  constructor
  · rintro (h | h)
    · exact Or.inl h
    · exact Or.inr h.symm
  · rintro (h | h)
    · exact Or.inl h
    · exact Or.inr h.symm

lemma cell_limit_step_testBit (f i k : ℕ) (hi : i < BMS_NUM_CELLS) :
    ((cell_limit_step cfg s f i).testBit k = true ↔
      f.testBit k = true ∨
      (k = i * 2 + 1 ∧ s.cell_v.getD i 0 < cfg.cell_v_min) ∨
      (k = i * 2 + 2 ∧ cfg.cell_v_max < s.cell_v.getD i 0)) := by
  have h1 : i * 2 + 1 < 16 := by simp only [BMS_NUM_CELLS] at hi; omega
  have h2 : i * 2 + 2 < 16 := by simp only [BMS_NUM_CELLS] at hi; omega
  simp only [cell_limit_step, gt_iff_lt, shiftLeft_mod_eq _ h1, shiftLeft_mod_eq _ h2]
  split_ifs with hlt hgt hgt <;>
    simp only [testBit_or_pow, hlt, hgt, and_true, and_false, or_false,
      iff_self, false_and, false_or, or_assoc] <;>
    tauto

lemma cell_fold_testBit :
    ∀ (l : List ℕ), (∀ i ∈ l, i < BMS_NUM_CELLS) → ∀ (f k : ℕ),
      ((l.foldl (cell_limit_step cfg s) f).testBit k = true ↔
        f.testBit k = true ∨ ∃ i ∈ l,
          (k = i * 2 + 1 ∧ s.cell_v.getD i 0 < cfg.cell_v_min) ∨
          (k = i * 2 + 2 ∧ cfg.cell_v_max < s.cell_v.getD i 0)) := by
  intro l
  induction l with
  | nil => intro _ f k; simp
  | cons a l ih =>
    intro hmem f k
    simp only [List.foldl_cons]
    rw [ih (fun i hi => hmem i (List.mem_cons_of_mem a hi)),
      cell_limit_step_testBit cfg s f a k (hmem a (List.mem_cons_self a l))]
    simp only [List.mem_cons]
    constructor
    · rintro ((hf | ha) | ⟨i, hi, hcase⟩)
      · exact Or.inl hf
      · exact Or.inr ⟨a, Or.inl rfl, ha⟩
      · exact Or.inr ⟨i, Or.inr hi, hcase⟩
    · rintro (hf | ⟨i, rfl | hi, hcase⟩)
      · exact Or.inl (Or.inl hf)
      · exact Or.inl (Or.inr hcase)
      · exact Or.inr ⟨i, hi, hcase⟩

lemma check_limits_testBit (f k : ℕ) :
    ((check_limits_sample cfg s f).testBit k = true ↔
      f.testBit k = true ∨ bit_meaning cfg s k) := by
  have hc := cell_fold_testBit cfg s (List.range BMS_NUM_CELLS)
    (fun i hi => List.mem_range.mp hi) f k
  simp only [check_limits_sample, bit_meaning, gt_iff_lt,
    show (2048 : ℕ) = 2 ^ 11 by norm_num, show (4096 : ℕ) = 2 ^ 12 by norm_num]
  split_ifs with hplo hphi hphi <;>
    simp only [testBit_or_pow, hc, hplo, hphi, and_true, and_false, or_false,
      false_and, false_or, or_assoc] <;>
    tauto

lemma check_fold_testBit (samp : ℕ → bms_sample) :
    ∀ (l : List ℕ) (k : ℕ),
      ((l.foldl (fun f i => check_limits_sample cfg (samp i) f) 0).testBit k = true ↔
        ∃ i ∈ l, bit_meaning cfg (samp i) k) := by
  intro l
  induction l with
  | nil => intro k; simp [Nat.zero_testBit]
  | cons a l ih =>
    intro k
    simp only [List.foldl_cons]
    rw [check_fold_lor cfg samp l (check_limits_sample cfg (samp a) 0),
      Nat.testBit_lor]
    have ha : ((check_limits_sample cfg (samp a) 0).testBit k = true ↔
        bit_meaning cfg (samp a) k) := by
      rw [check_limits_testBit]
      simp [Nat.zero_testBit]
    simp only [Bool.or_eq_true, ha, ih, List.mem_cons]
    constructor
    · rintro (hb | ⟨i, hi, hb⟩)
      · exact ⟨a, Or.inl rfl, hb⟩
      · exact ⟨i, Or.inr hi, hb⟩
    · rintro ⟨i, rfl | hi, hb⟩
      · exact Or.inl hb
      · exact Or.inr ⟨i, hi, hb⟩

lemma lor_one_testBit (e k : ℕ) :
    ((e ||| 1).testBit k = true ↔ k = 0 ∨ e.testBit k = true) := by
  rw [show (e ||| 1) = e ||| 2 ^ 0 by norm_num, testBit_or_pow]
  tauto

lemma bit_meaning_uv (c : ℕ) (hc : c < 5) :
    bit_meaning cfg s (c * 2 + 1) ↔ s.cell_v.getD c 0 < cfg.cell_v_min := by
  simp only [bit_meaning, List.mem_range, BMS_NUM_CELLS]
  constructor
  · rintro (⟨c2, hc2, ⟨he, hv⟩ | ⟨he, hv⟩⟩ | ⟨he, -⟩ | ⟨he, -⟩)
    · obtain rfl : c = c2 := by omega
      exact hv
    · omega
    · omega
    · omega
  · intro hv
    exact Or.inl ⟨c, hc, Or.inl ⟨rfl, hv⟩⟩

lemma bit_meaning_ov (c : ℕ) (hc : c < 5) :
    bit_meaning cfg s (c * 2 + 2) ↔ cfg.cell_v_max < s.cell_v.getD c 0 := by
  simp only [bit_meaning, List.mem_range, BMS_NUM_CELLS]
  constructor
  · rintro (⟨c2, hc2, ⟨he, hv⟩ | ⟨he, hv⟩⟩ | ⟨he, -⟩ | ⟨he, -⟩)
    · omega
    · obtain rfl : c = c2 := by omega
      exact hv
    · omega
    · omega
  · intro hv
    exact Or.inl ⟨c, hc, Or.inr ⟨rfl, hv⟩⟩

lemma bit_meaning_uc :
    bit_meaning cfg s 11 ↔ s.pack_i < cfg.current_min := by
  simp only [bit_meaning, List.mem_range, BMS_NUM_CELLS]
  constructor
  · rintro (⟨c2, hc2, ⟨he, -⟩ | ⟨he, -⟩⟩ | ⟨-, hv⟩ | ⟨he, -⟩)
    · omega
    · omega
    · exact hv
    · omega
  · intro hv
    refine Or.inr (Or.inl ⟨?_, hv⟩)
    trivial

lemma bit_meaning_oc :
    bit_meaning cfg s 12 ↔ cfg.current_max < s.pack_i := by
  simp only [bit_meaning, List.mem_range, BMS_NUM_CELLS]
  constructor
  · rintro (⟨c2, hc2, ⟨he, -⟩ | ⟨he, -⟩⟩ | ⟨he, -⟩ | ⟨-, hv⟩)
    · omega
    · omega
    · omega
    · exact hv
  · intro hv
    refine Or.inr (Or.inr ⟨?_, hv⟩)
    trivial

lemma bit_meaning_high (k : ℕ) (hk : 13 ≤ k) : ¬ bit_meaning cfg s k := by
  simp only [bit_meaning, List.mem_range, BMS_NUM_CELLS]
  rintro (⟨c2, hc2, ⟨he, -⟩ | ⟨he, -⟩⟩ | ⟨he, -⟩ | ⟨he, -⟩) <;> omega

lemma bit_meaning_violates (k : ℕ) (h : bit_meaning cfg s k) : sample_violates cfg s := by
  simp only [bit_meaning, List.mem_range] at h
  simp only [sample_violates, List.mem_range]
  rcases h with ⟨c2, hc2, ⟨-, hv⟩ | ⟨-, hv⟩⟩ | ⟨-, hv⟩ | ⟨-, hv⟩
  · exact Or.inl ⟨c2, hc2, Or.inl hv⟩
  · exact Or.inl ⟨c2, hc2, Or.inr hv⟩
  · exact Or.inr (Or.inl hv)
  · exact Or.inr (Or.inr hv)

/-- All bitmap conjuncts for a window whose errors bitmap is a
`check_limits_sample` fold over `cnt` samples starting at ring offset
`base`, or'd with the validity bit. -/
lemma window_bits (cfg : bms_config) (buf : bms_sample_buffer) (w : bms_stats)
    (base cnt : ℕ)
    (he : w.cell_errors =
      ((List.range cnt).foldl
        (fun f i => check_limits_sample cfg (sampleAt buf (base + i)) f) 0) ||| 1)
    (hsc : w.sample_count = cnt) :
    (w.cell_errors.testBit 0 = true) ∧
    (∀ c ∈ List.range 5,
      (w.cell_errors.testBit (c * 2 + 1) = true ↔
        ∃ i ∈ List.range w.sample_count,
          (sampleAt buf (base + i)).cell_v.getD c 0 < cfg.cell_v_min) ∧
      (w.cell_errors.testBit (c * 2 + 2) = true ↔
        ∃ i ∈ List.range w.sample_count,
          cfg.cell_v_max < (sampleAt buf (base + i)).cell_v.getD c 0)) ∧
    (w.cell_errors.testBit 11 = true ↔
      ∃ i ∈ List.range w.sample_count,
        (sampleAt buf (base + i)).pack_i < cfg.current_min) ∧
    (w.cell_errors.testBit 12 = true ↔
      ∃ i ∈ List.range w.sample_count,
        cfg.current_max < (sampleAt buf (base + i)).pack_i) ∧
    (∀ k, 13 ≤ k → w.cell_errors.testBit k = false) := by
  rw [hsc]
  have hfold := check_fold_testBit cfg (fun i => sampleAt buf (base + i)) (List.range cnt)
  refine ⟨?_, ?_, ?_, ?_, ?_⟩
  · rw [he, lor_one_testBit]
    exact Or.inl rfl
  · intro c hc
    have hc5 : c < 5 := List.mem_range.mp hc
    constructor
    · rw [he, lor_one_testBit, hfold]
      constructor
      · rintro (h0 | ⟨i, hi, hb⟩)
        · omega
        · exact ⟨i, hi, (bit_meaning_uv cfg _ c hc5).mp hb⟩
      · rintro ⟨i, hi, hv⟩
        exact Or.inr ⟨i, hi, (bit_meaning_uv cfg _ c hc5).mpr hv⟩
    · rw [he, lor_one_testBit, hfold]
      constructor
      · rintro (h0 | ⟨i, hi, hb⟩)
        · omega
        · exact ⟨i, hi, (bit_meaning_ov cfg _ c hc5).mp hb⟩
      · rintro ⟨i, hi, hv⟩
        exact Or.inr ⟨i, hi, (bit_meaning_ov cfg _ c hc5).mpr hv⟩
  · rw [he, lor_one_testBit, hfold]
    constructor
    · rintro (h0 | ⟨i, hi, hb⟩)
      · omega
      · exact ⟨i, hi, (bit_meaning_uc cfg _).mp hb⟩
    · rintro ⟨i, hi, hv⟩
      exact Or.inr ⟨i, hi, (bit_meaning_uc cfg _).mpr hv⟩
  · rw [he, lor_one_testBit, hfold]
    constructor
    · rintro (h0 | ⟨i, hi, hb⟩)
      · omega
      · exact ⟨i, hi, (bit_meaning_oc cfg _).mp hb⟩
    · rintro ⟨i, hi, hv⟩
      exact Or.inr ⟨i, hi, (bit_meaning_oc cfg _).mpr hv⟩
  · intro k hk
    rcases Bool.eq_false_or_eq_true (w.cell_errors.testBit k) with ht | hf
    · exfalso
      rw [he, lor_one_testBit, hfold] at ht
      rcases ht with rfl | ⟨i, -, hb⟩
      · omega
      · exact bit_meaning_high cfg _ k hk hb
    · exact hf

lemma fault_list_getD (cfg : bms_config) (buf : bms_sample_buffer)
    (j : ℕ) (hj : j < 5) :
    [fault_window cfg buf 0, fault_window cfg buf 4, fault_window cfg buf 8,
     fault_window cfg buf 12, fault_window cfg buf 16].getD j default_stats =
      fault_window cfg buf (4 * j) := by
  interval_cases j <;> norm_num

end ErrorsBitmapLemmas

/-- C1: a `bms_compute_stats` call on a staging ring with fewer than 20
samples returns false and leaves the ring (head, count and stored samples)
unchanged; with 20 or more staged samples the call succeeds, advances head
by exactly 20 modulo the capacity and decreases count by exactly 20,
however many additional samples are staged. -/
theorem C1_aggregator_chunk (cfg : bms_config) (buf : bms_sample_buffer) :
    (buf.count < 20 → bms_compute_stats cfg buf = (buf, [], false)) ∧
    (20 ≤ buf.count →
      (bms_compute_stats cfg buf).2.2 = true ∧
      (bms_compute_stats cfg buf).1.head = (buf.head + 20) % buf.capacity ∧
      (bms_compute_stats cfg buf).1.count + 20 = buf.count) := by
  constructor
  · intro h
    exact bms_compute_stats_small cfg buf h
  · intro h
    by_cases hv : ∃ i ∈ List.range samples_per_1s, sample_violates cfg (sampleAt buf i)
    · rw [bms_compute_stats_fault cfg buf h hv]
      refine ⟨rfl, rfl, ?_⟩
      simp only [samples_per_1s]
      omega
    · push_neg at hv
      rw [bms_compute_stats_nominal cfg buf h hv]
      refine ⟨rfl, rfl, ?_⟩
      simp only [samples_per_1s]
      omega

/-- Witness for C1 at concrete rings: 5 staged samples (no-op, false) and
23 staged samples (success, head +20 mod 25, count 23 → 3). -/
theorem C1_aggregator_chunk_witness :
    (wbuf_small.count < 20 ∧ bms_compute_stats wcfg wbuf_small = (wbuf_small, [], false)) ∧
    (20 ≤ wbuf_fault.count ∧
      (bms_compute_stats wcfg wbuf_fault).2.2 = true ∧
      (bms_compute_stats wcfg wbuf_fault).1.head = (wbuf_fault.head + 20) % wbuf_fault.capacity ∧
      (bms_compute_stats wcfg wbuf_fault).1.count + 20 = wbuf_fault.count) :=
  ⟨⟨by decide, (C1_aggregator_chunk wcfg wbuf_small).1 (by decide)⟩,
   ⟨by decide, (C1_aggregator_chunk wcfg wbuf_fault).2 (by decide)⟩⟩

/-- C2: over a successful 20-sample chunk, any sample with a cell voltage
outside `[cell_v_min, cell_v_max]` or pack current outside
`[current_min, current_max]` makes the call emit exactly 5 windows of 4
samples each; otherwise it emits exactly 1 window over all 20 samples. -/
theorem C2_mode_selection (cfg : bms_config) (buf : bms_sample_buffer)
    (h : 20 ≤ buf.count) :
    ((∃ i ∈ List.range 20, sample_violates cfg (sampleAt buf i)) →
      (bms_compute_stats cfg buf).2.1.length = 5 ∧
      ∀ w ∈ (bms_compute_stats cfg buf).2.1, w.sample_count = 4) ∧
    ((∀ i ∈ List.range 20, ¬ sample_violates cfg (sampleAt buf i)) →
      (bms_compute_stats cfg buf).2.1.length = 1 ∧
      ∀ w ∈ (bms_compute_stats cfg buf).2.1, w.sample_count = 20) := by
  constructor
  · intro hv
    rw [bms_compute_stats_fault cfg buf h hv]
    refine ⟨rfl, ?_⟩
    intro w hw
    simp only [List.mem_cons, List.not_mem_nil, or_false] at hw
    rcases hw with rfl | rfl | rfl | rfl | rfl <;>
      exact fault_window_sample_count cfg buf _
  · intro hv
    rw [bms_compute_stats_nominal cfg buf h hv]
    refine ⟨rfl, ?_⟩
    intro w hw
    simp only [List.mem_cons, List.not_mem_nil, or_false] at hw
    subst hw
    exact nominal_window_sample_count buf _

/-- Witness for C2: the violating ring yields 5 windows of 4 samples, the
in-limit ring yields 1 window of 20 samples. -/
theorem C2_mode_selection_witness :
    (20 ≤ wbuf_fault.count ∧
      (∃ i ∈ List.range 20, sample_violates wcfg (sampleAt wbuf_fault i)) ∧
      (bms_compute_stats wcfg wbuf_fault).2.1.length = 5) ∧
    (20 ≤ wbuf_nominal.count ∧
      (∀ i ∈ List.range 20, ¬ sample_violates wcfg (sampleAt wbuf_nominal i)) ∧
      (bms_compute_stats wcfg wbuf_nominal).2.1.length = 1) :=
  ⟨⟨by decide, by decide,
    ((C2_mode_selection wcfg wbuf_fault (by decide)).1 (by decide)).1⟩,
   ⟨by decide, by decide,
    ((C2_mode_selection wcfg wbuf_nominal (by decide)).2 (by decide)).1⟩⟩

/-- C3: every emitted window has the validity bit (bit 0) set; for each
cell `c` in 0..4 the undervoltage bit `2c+1` (resp. overvoltage bit `2c+2`)
is set iff some sample aggregated into that window has cell `c` below
`cell_v_min` (resp. above `cell_v_max`); bit 11 (resp. 12) iff some such
sample's pack current is below `current_min` (resp. above `current_max`);
bits 13..15 are 0; and a nominal-mode window has only bit 0 set. -/
theorem C3_errors_bitmap (cfg : bms_config) (buf : bms_sample_buffer)
    (h : 20 ≤ buf.count) (j : ℕ)
    (hj : j < (bms_compute_stats cfg buf).2.1.length) :
    ((emitted_window cfg buf j).cell_errors.testBit 0 = true) ∧
    (∀ c ∈ List.range 5,
      ((emitted_window cfg buf j).cell_errors.testBit (c * 2 + 1) = true ↔
        ∃ i ∈ List.range (emitted_window cfg buf j).sample_count,
          (sampleAt buf (4 * j + i)).cell_v.getD c 0 < cfg.cell_v_min) ∧
      ((emitted_window cfg buf j).cell_errors.testBit (c * 2 + 2) = true ↔
        ∃ i ∈ List.range (emitted_window cfg buf j).sample_count,
          cfg.cell_v_max < (sampleAt buf (4 * j + i)).cell_v.getD c 0)) ∧
    ((emitted_window cfg buf j).cell_errors.testBit 11 = true ↔
      ∃ i ∈ List.range (emitted_window cfg buf j).sample_count,
        (sampleAt buf (4 * j + i)).pack_i < cfg.current_min) ∧
    ((emitted_window cfg buf j).cell_errors.testBit 12 = true ↔
      ∃ i ∈ List.range (emitted_window cfg buf j).sample_count,
        cfg.current_max < (sampleAt buf (4 * j + i)).pack_i) ∧
    (∀ k, 13 ≤ k → (emitted_window cfg buf j).cell_errors.testBit k = false) ∧
    ((∀ i ∈ List.range 20, ¬ sample_violates cfg (sampleAt buf i)) →
      (emitted_window cfg buf j).cell_errors = 1) := by
  by_cases hv : ∃ i ∈ List.range samples_per_1s, sample_violates cfg (sampleAt buf i)
  · have hcomp := bms_compute_stats_fault cfg buf h hv
    have hj5 : j < 5 := by
      rw [hcomp] at hj
      simpa using hj
    have hw : emitted_window cfg buf j = fault_window cfg buf (4 * j) := by
      unfold emitted_window
      rw [hcomp]
      exact fault_list_getD cfg buf j hj5
    obtain ⟨b0, bc, b11, b12, bhigh⟩ :=
      window_bits cfg buf (fault_window cfg buf (4 * j)) (4 * j) samples_per_0_2s
        (fault_window_cell_errors cfg buf (4 * j))
        (fault_window_sample_count cfg buf (4 * j))
    rw [hw]
    refine ⟨b0, bc, b11, b12, bhigh, ?_⟩
    intro hnv
    exfalso
    obtain ⟨i, hi, hvi⟩ := hv
    exact hnv i hi hvi
  · push_neg at hv
    have hcomp := bms_compute_stats_nominal cfg buf h hv
    have hj1 : j < 1 := by
      rw [hcomp] at hj
      simpa using hj
    obtain rfl : j = 0 := by omega
    have hw : emitted_window cfg buf 0 = nominal_window buf samples_per_1s := by
      unfold emitted_window
      rw [hcomp]
      rfl
    have hfold0 : (List.range samples_per_1s).foldl
        (fun f i => check_limits_sample cfg (sampleAt buf (0 + i)) f) 0 = 0 := by
      refine (check_fold_zero_iff cfg (fun i => sampleAt buf (0 + i))
        (List.range samples_per_1s)).mpr ?_
      intro i hi
      simpa using hv i hi
    have he : (nominal_window buf samples_per_1s).cell_errors =
        ((List.range samples_per_1s).foldl
          (fun f i => check_limits_sample cfg (sampleAt buf (0 + i)) f) 0) ||| 1 := by
      rw [nominal_window_cell_errors, hfold0]
      rfl
    obtain ⟨b0, bc, b11, b12, bhigh⟩ :=
      window_bits cfg buf (nominal_window buf samples_per_1s) 0 samples_per_1s
        he (nominal_window_sample_count buf samples_per_1s)
    rw [hw]
    simp only [Nat.mul_zero, Nat.zero_add] at b0 bc b11 b12 bhigh ⊢
    refine ⟨b0, bc, b11, b12, bhigh, ?_⟩
    intro _
    exact nominal_window_cell_errors buf samples_per_1s

set_option maxRecDepth 100000 in
/-- Witness for C3 at the violating concrete ring, window 0. -/
theorem C3_errors_bitmap_witness :
    20 ≤ wbuf_fault.count ∧
    0 < (bms_compute_stats wcfg wbuf_fault).2.1.length ∧
    (emitted_window wcfg wbuf_fault 0).cell_errors.testBit 0 = true :=
  ⟨by decide, by decide,
    (C3_errors_bitmap wcfg wbuf_fault (by decide) 0 (by decide)).1⟩

section StateMachineLemmas

/-- Consumption facts of a successful aggregator call, read off the two
success branches. -/
lemma compute_consumes (cfg : bms_config) (buf : bms_sample_buffer)
    (h : (bms_compute_stats cfg buf).2.2 = true) :
    (bms_compute_stats cfg buf).1.count + 20 = buf.count ∧ 20 ≤ buf.count ∧
    (bms_compute_stats cfg buf).1.head = (buf.head + 20) % buf.capacity ∧
    (bms_compute_stats cfg buf).1.capacity = buf.capacity := by
  revert h
  simp only [bms_compute_stats, samples_per_1s]
  split_ifs with h0 h1 hf <;> intro h <;> simp_all <;> omega

lemma check_flag_true (nvs : nvs_store)
    (h1 : nvs.open_ok = true) (h2 : nvs.config_mode = some 1) :
    check_config_mode_flag nvs = (true, { nvs with config_mode := some 0 }) := by
  simp [check_config_mode_flag, h1, h2]

lemma check_flag_false (nvs : nvs_store)
    (h : ¬(nvs.open_ok = true ∧ nvs.config_mode = some 1)) :
    check_config_mode_flag nvs = (false, nvs) := by
  by_cases h1 : nvs.open_ok = true
  · simp only [check_config_mode_flag, h1, Bool.true_eq_false, if_false]
    cases hcm : nvs.config_mode with
    | none => rfl
    | some v =>
      rcases v with _ | v
      · rfl
      · rcases v with _ | v
        · exact absurd ⟨h1, hcm⟩ h
        · rfl
  · have h0 : nvs.open_ok = false := by
      revert h1
      cases nvs.open_ok <;> simp
    simp [check_config_mode_flag, h0]

lemma input_handler_frame (s : sys_state) :
    (state_input_handler s).sm = s.sm ∧ (state_input_handler s).nvs = s.nvs ∧
      (state_input_handler s).init_ok = s.init_ok := by
  simp only [state_input_handler]
  split_ifs
  · cases s.sm.curr_state <;> exact ⟨rfl, rfl, rfl⟩
  · exact ⟨rfl, rfl, rfl⟩

lemma output_handler_frame (next : app_state) (s : sys_state) :
    (state_output_handler next s).sm = s.sm ∧ (state_output_handler next s).nvs = s.nvs := by
  simp only [state_output_handler]
  split_ifs
  · cases s.sm.curr_state <;> exact ⟨rfl, rfl⟩
  · exact ⟨rfl, rfl⟩

lemma drain_queue_frame (s : sys_state) :
    (drain_queue s).sm = s.sm ∧ (drain_queue s).nvs = s.nvs ∧
      (drain_queue s).history = s.history ∧ (drain_queue s).published = s.published ∧
      (drain_queue s).init_ok = s.init_ok := by
  rcases hq : s.queue with _ | l <;> simp [drain_queue, hq]

lemma processing_loop_frame (cfg : bms_config) (ser : bms_stats → Option (List ℕ)) :
    ∀ (n : ℕ) (s : sys_state), s.staging.count = n →
      (processing_loop cfg ser s).sm = s.sm ∧ (processing_loop cfg ser s).nvs = s.nvs ∧
        (processing_loop cfg ser s).queue = s.queue ∧
        (processing_loop cfg ser s).init_ok = s.init_ok := by
  intro n
  induction n using Nat.strong_induction_on with
  | _ n ih =>
    intro s hn
    rw [processing_loop]
    by_cases hpos : 0 < s.staging.count
    · rw [if_pos hpos]
      by_cases hok : (bms_compute_stats cfg s.staging).2.2 = true
      · rw [dif_pos hok]
        have hdec := compute_consumes cfg s.staging hok
        refine ih _ ?_ _ rfl
        show (remove_processed_samples (bms_compute_stats cfg s.staging).1 1).count < n
        simp only [remove_processed_samples]
        omega
      · rw [dif_neg hok]
        exact ⟨rfl, rfl, rfl, rfl⟩
    · rw [if_neg hpos]
      exact ⟨rfl, rfl, rfl, rfl⟩

lemma input_sm (s : sys_state) : (state_input_handler s).sm = s.sm :=
  (input_handler_frame s).1

lemma input_nvs (s : sys_state) : (state_input_handler s).nvs = s.nvs :=
  (input_handler_frame s).2.1

lemma input_init_ok (s : sys_state) : (state_input_handler s).init_ok = s.init_ok :=
  (input_handler_frame s).2.2

lemma output_sm (next : app_state) (s : sys_state) :
    (state_output_handler next s).sm = s.sm :=
  (output_handler_frame next s).1

lemma output_nvs (next : app_state) (s : sys_state) :
    (state_output_handler next s).nvs = s.nvs :=
  (output_handler_frame next s).2

lemma drain_sm (s : sys_state) : (drain_queue s).sm = s.sm :=
  (drain_queue_frame s).1

lemma drain_nvs (s : sys_state) : (drain_queue s).nvs = s.nvs :=
  (drain_queue_frame s).2.1

lemma processing_loop_sm (cfg : bms_config) (ser : bms_stats → Option (List ℕ))
    (s : sys_state) : (processing_loop cfg ser s).sm = s.sm :=
  (processing_loop_frame cfg ser s.staging.count s rfl).1

lemma processing_loop_nvs (cfg : bms_config) (ser : bms_stats → Option (List ℕ))
    (s : sys_state) : (processing_loop cfg ser s).nvs = s.nvs :=
  (processing_loop_frame cfg ser s.staging.count s rfl).2.1

end StateMachineLemmas

/-- C4: one step of `app_states_exec` follows the transition table: from
INIT to PROCESSING when the init sequence succeeds and to CONFIG when it
fails; from PROCESSING to CONFIG exactly when the persisted `config_mode`
flag was read as set (and then the flag is cleared), otherwise PROCESSING;
from CONFIG always CONFIG; and after every step `prev := curr` and
`curr := next`. -/
theorem C4_state_machine_step (cfg : bms_config) (ser : bms_stats → Option (List ℕ))
    (s : sys_state) :
    ((app_states_exec cfg ser s).sm.prev_state = s.sm.curr_state) ∧
    ((app_states_exec cfg ser s).sm.curr_state = (app_states_exec cfg ser s).sm.next_state) ∧
    (s.sm.curr_state = .init →
      (app_states_exec cfg ser s).sm.curr_state =
        (if s.init_ok then app_state.processing else app_state.config)) ∧
    (s.sm.curr_state = .processing →
      ((s.nvs.open_ok = true ∧ s.nvs.config_mode = some 1) →
        (app_states_exec cfg ser s).sm.curr_state = .config ∧
        (app_states_exec cfg ser s).nvs.config_mode = some 0) ∧
      (¬(s.nvs.open_ok = true ∧ s.nvs.config_mode = some 1) →
        (app_states_exec cfg ser s).sm.curr_state = .processing)) ∧
    (s.sm.curr_state = .config →
      (app_states_exec cfg ser s).sm.curr_state = .config) := by
  cases hc : s.sm.curr_state with
  | undefined =>
    refine ⟨?_, ?_,
      fun habs => app_state.noConfusion habs,
      fun habs => app_state.noConfusion habs,
      fun habs => app_state.noConfusion habs⟩ <;>
      simp [app_states_exec, input_sm, hc, output_sm, output_nvs]
  | init =>
    refine ⟨?_, ?_, fun _ => ?_,
      fun habs => app_state.noConfusion habs,
      fun habs => app_state.noConfusion habs⟩ <;>
      by_cases hi : s.init_ok <;>
      simp [app_states_exec, input_sm, input_init_ok, hc, state_init_handler, hi,
        output_sm, output_nvs]
  | processing =>
    by_cases hf : s.nvs.open_ok = true ∧ s.nvs.config_mode = some 1
    · have hcf := check_flag_true s.nvs hf.1 hf.2
      refine ⟨?_, ?_,
        fun habs => app_state.noConfusion habs,
        fun _ => ⟨fun _ => ⟨?_, ?_⟩, fun hn => absurd hf hn⟩,
        fun habs => app_state.noConfusion habs⟩ <;>
        simp [app_states_exec, input_sm, input_nvs, hc, state_processing_handler,
          hcf, output_sm, output_nvs, drain_sm, drain_nvs,
          processing_loop_sm, processing_loop_nvs]
    · have hcf := check_flag_false s.nvs hf
      refine ⟨?_, ?_,
        fun habs => app_state.noConfusion habs,
        fun _ => ⟨fun hy => absurd hy hf, fun _ => ?_⟩,
        fun habs => app_state.noConfusion habs⟩ <;>
        simp [app_states_exec, input_sm, input_nvs, hc, state_processing_handler,
          hcf, output_sm, output_nvs, drain_sm, drain_nvs,
          processing_loop_sm, processing_loop_nvs]
  | config =>
    refine ⟨?_, ?_,
      fun habs => app_state.noConfusion habs,
      fun habs => app_state.noConfusion habs,
      fun _ => ?_⟩ <;>
      simp [app_states_exec, input_sm, hc, state_config_handler,
        output_sm, output_nvs]

/-- Witness for C4: a concrete PROCESSING step with the flag set moves to
CONFIG and clears the flag. -/
theorem C4_state_machine_step_witness :
    (wsys.sm.curr_state = app_state.processing) ∧
    (wsys.nvs.open_ok = true ∧ wsys.nvs.config_mode = some 1) ∧
    ((app_states_exec wcfg wser wsys).sm.curr_state = app_state.config ∧
      (app_states_exec wcfg wser wsys).nvs.config_mode = some 0) :=
  ⟨by decide, ⟨by decide, by decide⟩,
    (((C4_state_machine_step wcfg wser wsys).2.2.2.1) (by decide)).1 ⟨by decide, by decide⟩⟩

section QueueLemmas

lemma push_list_all (xs : List bms_sample) :
    ∀ (l : List bms_sample), l.length + xs.length ≤ 600 →
      bms_queue_push_list (some l) xs = (some (l ++ xs), true) := by
  induction xs with
  | nil => intro l _; simp [bms_queue_push_list]
  | cons x xs ih =>
    intro l h
    simp only [List.length_cons] at h
    have hp : bms_queue_push (some l) x = (some (l ++ [x]), true) := by
      have hfree : 0 < queue_free_slots l := by
        simp only [queue_free_slots, BMS_QUEUE_LEN, BMS_QUEUE_SECONDS, BMS_QUEUE_RATE_HZ]
        omega
      simp [bms_queue_push, hfree]
    simp only [bms_queue_push_list, hp]
    rw [ih (l ++ [x]) (by simp only [List.length_append, List.length_singleton]; omega)]
    simp

end QueueLemmas

/-- C5: the inter-core queue has capacity exactly 600; push on a full
queue returns false and leaves the queue unchanged; pushing any 600 samples
from empty all succeed (so the 601st fails); after one pop a push succeeds
again; pop on an empty queue returns false. -/
theorem C5_queue_bounded :
    BMS_QUEUE_LEN = 600 ∧
    (∀ (l : List bms_sample) (x : bms_sample), 600 ≤ l.length →
      bms_queue_push (some l) x = (some l, false)) ∧
    (∀ (l : List bms_sample) (x : bms_sample), l.length < 600 →
      bms_queue_push (some l) x = (some (l ++ [x]), true)) ∧
    (∀ (xs : List bms_sample), xs.length ≤ 600 →
      bms_queue_push_list (some []) xs = (some xs, true)) ∧
    (bms_queue_pop (some []) = (some [], none)) ∧
    (∀ (x : bms_sample) (l : List bms_sample),
      bms_queue_pop (some (x :: l)) = (some l, some x)) ∧
    (∀ (z y : bms_sample) (rest : List bms_sample), rest.length = 599 →
      bms_queue_push (bms_queue_pop (some (z :: rest))).1 y =
        (some (rest ++ [y]), true)) := by
  refine ⟨rfl, ?_, ?_, ?_, rfl, fun x l => rfl, ?_⟩
  · intro l x h
    have hfree : ¬ 0 < queue_free_slots l := by
      simp only [queue_free_slots, BMS_QUEUE_LEN, BMS_QUEUE_SECONDS, BMS_QUEUE_RATE_HZ]
      omega
    simp [bms_queue_push, hfree]
  · intro l x h
    have hfree : 0 < queue_free_slots l := by
      simp only [queue_free_slots, BMS_QUEUE_LEN, BMS_QUEUE_SECONDS, BMS_QUEUE_RATE_HZ]
      omega
    simp [bms_queue_push, hfree]
  · intro xs h
    simpa using push_list_all xs [] (by simpa using h)
  · intro z y rest h
    have hfree : 0 < queue_free_slots rest := by
      simp only [queue_free_slots, BMS_QUEUE_LEN, BMS_QUEUE_SECONDS, BMS_QUEUE_RATE_HZ]
      omega
    simp [bms_queue_pop, bms_queue_push, hfree]

/-- Witness for C5: 600 pushes from empty all succeed, the 601st fails. -/
theorem C5_queue_bounded_witness :
    ((List.replicate 600 wsample_ok).length ≤ 600 ∧
      bms_queue_push_list (some []) (List.replicate 600 wsample_ok) =
        (some (List.replicate 600 wsample_ok), true)) ∧
    (600 ≤ (List.replicate 600 wsample_ok).length ∧
      bms_queue_push (some (List.replicate 600 wsample_ok)) wsample_bad =
        (some (List.replicate 600 wsample_ok), false)) :=
  ⟨⟨by rw [List.length_replicate], C5_queue_bounded.2.2.2.1 _ (by rw [List.length_replicate])⟩,
   ⟨by rw [List.length_replicate], C5_queue_bounded.2.1 _ _ (by rw [List.length_replicate])⟩⟩

section HistoryLemmas

/-- The stored length of a pushed payload. -/
lemma hist_push_eq (hb : stats_history_buffer) (p : List ℕ) (hp : p.length ≠ 0) :
    bms_stats_hist_push hb (some p) =
      { items := Function.update hb.items (hist_head_slot hb)
          { json := p.take (if BMS_STATS_JSON_MAXLEN ≤ p.length then BMS_STATS_JSON_MAXLEN - 1
                else p.length) ++ [0] ++
              ((hb.items (hist_head_slot hb)).json.drop
                ((if BMS_STATS_JSON_MAXLEN ≤ p.length then BMS_STATS_JSON_MAXLEN - 1
                  else p.length) + 1))
            len := if BMS_STATS_JSON_MAXLEN ≤ p.length then BMS_STATS_JSON_MAXLEN - 1
              else p.length }
        head := (hb.head + 1) % BMS_HTTP_HISTORY_CAPACITY
        count := if hb.count < BMS_HTTP_HISTORY_CAPACITY then hb.count + 1 else hb.count } := by
  simp only [bms_stats_hist_push, hp, if_false]

end HistoryLemmas

/-- C10: a NULL or zero-length payload leaves the history ring unchanged;
a payload of 512 or more bytes is truncated to its first 511 bytes with
recorded length 511; and after every push each stored entry has recorded
length at most 511, a full 512-byte slot, and a NUL terminator at index
`len`. -/
theorem C10_history_push_invariant :
    (∀ hb : stats_history_buffer, bms_stats_hist_push hb none = hb) ∧
    (∀ (hb : stats_history_buffer) (p : List ℕ), p.length = 0 →
      bms_stats_hist_push hb (some p) = hb) ∧
    (∀ (hb : stats_history_buffer) (p : List ℕ), 512 ≤ p.length →
      ((bms_stats_hist_push hb (some p)).items (hist_head_slot hb)).len = 511 ∧
      ((bms_stats_hist_push hb (some p)).items (hist_head_slot hb)).json.take 511 =
        p.take 511) ∧
    (∀ hb : stats_history_buffer, hist_wf hb →
      ∀ j : Option (List ℕ), hist_wf (bms_stats_hist_push hb j)) := by
  refine ⟨fun hb => rfl, ?_, ?_, ?_⟩
  · intro hb p h
    simp [bms_stats_hist_push, h]
  · intro hb p h
    rw [hist_push_eq hb p (by omega)]
    have h512 : BMS_STATS_JSON_MAXLEN ≤ p.length := h
    simp only [h512, if_true, Function.update_same]
    refine ⟨rfl, ?_⟩
    have hlen : (p.take (BMS_STATS_JSON_MAXLEN - 1)).length = 511 := by
      rw [List.length_take]
      simp only [BMS_STATS_JSON_MAXLEN]
      omega
    rw [List.append_assoc,
      show (511 : ℕ) = (p.take (BMS_STATS_JSON_MAXLEN - 1)).length from hlen.symm,
      List.take_left, hlen]
    norm_num [BMS_STATS_JSON_MAXLEN]
  · intro hb hwf j
    cases j with
    | none => exact hwf
    | some p =>
      by_cases hp : p.length = 0
      · simpa [bms_stats_hist_push, hp] using hwf
      · rw [hist_push_eq hb p hp]
        intro i
        by_cases hi : i = hist_head_slot hb
        · subst hi
          obtain ⟨hl, hjl, -⟩ := hwf (hist_head_slot hb)
          simp only [Function.update_same]
          have hlen : (if BMS_STATS_JSON_MAXLEN ≤ p.length then BMS_STATS_JSON_MAXLEN - 1
              else p.length) ≤ 511 := by
            simp only [BMS_STATS_JSON_MAXLEN]
            split_ifs <;> omega
          have hle : (if BMS_STATS_JSON_MAXLEN ≤ p.length then BMS_STATS_JSON_MAXLEN - 1
              else p.length) ≤ p.length := by
            simp only [BMS_STATS_JSON_MAXLEN]
            split_ifs <;> omega
          have htk : (p.take (if BMS_STATS_JSON_MAXLEN ≤ p.length then BMS_STATS_JSON_MAXLEN - 1
              else p.length)).length =
              (if BMS_STATS_JSON_MAXLEN ≤ p.length then BMS_STATS_JSON_MAXLEN - 1
                else p.length) := by
            rw [List.length_take]
            omega
          refine ⟨hlen, ?_, ?_⟩
          · simp only [List.length_append, List.length_singleton, List.length_drop, htk, hjl]
            simp only [BMS_STATS_JSON_MAXLEN] at *
            split_ifs at * <;> omega
          · rw [List.append_assoc, List.getD_append_right _ _ 0 _ htk.le, htk]
            simp
        · obtain ⟨hl, hjl, hnul⟩ := hwf i
          simp only [Function.update_noteq hi]
          exact ⟨hl, hjl, hnul⟩

/-- Witness for C10: pushes on the empty ring — a NULL payload no-op, a
600-byte payload truncated to 511, and invariant preservation. -/
theorem C10_history_push_invariant_witness :
    (bms_stats_hist_push hist_empty none = hist_empty) ∧
    (512 ≤ (List.replicate 600 (7 : ℕ)).length ∧
      ((bms_stats_hist_push hist_empty (some (List.replicate 600 7))).items
        (hist_head_slot hist_empty)).len = 511) ∧
    (hist_wf hist_empty ∧ hist_wf (bms_stats_hist_push hist_empty (some [5]))) :=
  ⟨C10_history_push_invariant.1 hist_empty,
   ⟨by rw [List.length_replicate]; norm_num,
    (C10_history_push_invariant.2.2.1 hist_empty _
      (by rw [List.length_replicate]; norm_num)).1⟩,
   ⟨fun i => ⟨by norm_num [hist_empty],
      by simp only [hist_empty]; rw [List.length_replicate]; rfl, by rfl⟩,
    C10_history_push_invariant.2.2.2 hist_empty
      (fun i => ⟨by norm_num [hist_empty],
        by simp only [hist_empty]; rw [List.length_replicate]; rfl, by rfl⟩)
      (some [5])⟩⟩

section HistoryFifoLemmas

lemma hist_slot_at_val (hb : stats_history_buffer) (i : ℕ) :
    (hist_slot_at hb i).val = ((hb.head + 240 - hb.count) % 240 + i) % 240 := rfl

lemma hist_head_slot_val (hb : stats_history_buffer) :
    (hist_head_slot hb).val = hb.head % 240 := rfl

lemma hist_head_push (hb : stats_history_buffer) (p : List ℕ) (hp : p.length ≠ 0) :
    (bms_stats_hist_push hb (some p)).head = (hb.head + 1) % 240 := by
  rw [hist_push_eq hb p hp]
  rfl

lemma hist_count_push (hb : stats_history_buffer) (p : List ℕ) (hp : p.length ≠ 0) :
    (bms_stats_hist_push hb (some p)).count =
      if hb.count < 240 then hb.count + 1 else hb.count := by
  rw [hist_push_eq hb p hp]
  rfl

lemma hist_items_push_small (hb : stats_history_buffer) (p : List ℕ)
    (hp : 0 < p.length) (hs : p.length < 512) :
    (bms_stats_hist_push hb (some p)).items =
      Function.update hb.items (hist_head_slot hb)
        { json := p ++ [0] ++ ((hb.items (hist_head_slot hb)).json.drop (p.length + 1))
          len := p.length } := by
  rw [hist_push_eq hb p (by omega)]
  have hlen_if : (if BMS_STATS_JSON_MAXLEN ≤ p.length then BMS_STATS_JSON_MAXLEN - 1
      else p.length) = p.length := by
    rw [if_neg]
    simp only [BMS_STATS_JSON_MAXLEN]
    omega
  simp only [hlen_if, List.take_length]

/-- The state of the history ring after pushing a list of valid payloads
onto the empty ring: head and count, and the payload stored at every
render slot. -/
lemma hist_push_all_spec :
    ∀ (ps : List (List ℕ)), (∀ p ∈ ps, 0 < p.length ∧ p.length < 512) →
      (hist_push_all hist_empty ps).head = ps.length % 240 ∧
      (hist_push_all hist_empty ps).count = min ps.length 240 ∧
      ∀ i < min ps.length 240,
        ((hist_push_all hist_empty ps).items
            (hist_slot_at (hist_push_all hist_empty ps) i)).len =
          (ps.getD (ps.length - min ps.length 240 + i) []).length ∧
        ((hist_push_all hist_empty ps).items
            (hist_slot_at (hist_push_all hist_empty ps) i)).json.take
            ((ps.getD (ps.length - min ps.length 240 + i) []).length) =
          ps.getD (ps.length - min ps.length 240 + i) [] := by
  intro ps
  induction ps using List.reverseRecOn with
  | nil =>
    intro _
    refine ⟨rfl, rfl, ?_⟩
    intro i hi
    simp at hi
  | append_singleton ps p ih =>
    intro hv
    have hvps : ∀ q ∈ ps, 0 < q.length ∧ q.length < 512 :=
      fun q hq => hv q (List.mem_append_left _ hq)
    have hvp : 0 < p.length ∧ p.length < 512 := hv p (by simp)
    obtain ⟨ihh, ihc, ihs⟩ := ih hvps
    have hp0 : p.length ≠ 0 := by omega
    have hpush : hist_push_all hist_empty (ps ++ [p]) =
        bms_stats_hist_push (hist_push_all hist_empty ps) (some p) := by
      simp [hist_push_all, List.foldl_append]
    rw [hpush]
    set hb := hist_push_all hist_empty ps with hhb
    have hH := hist_head_push hb p hp0
    have hC := hist_count_push hb p hp0
    have hI := hist_items_push_small hb p hvp.1 hvp.2
    simp only [List.length_append, List.length_singleton]
    refine ⟨by rw [hH, ihh]; omega, by rw [hC, ihc]; split_ifs <;> omega, ?_⟩
    intro i hi
    rw [hI]
    rcases lt_or_ge ps.length 240 with hKlt | hKge
    · -- fewer than 240 payloads so far: no overwrite yet
      have hmin2 : min (ps.length + 1) 240 = ps.length + 1 := by omega
      rw [hmin2] at hi ⊢
      by_cases hiK : i = ps.length
      · -- the freshly written slot
        subst hiK
        have hfe : hist_slot_at (bms_stats_hist_push hb (some p)) ps.length =
            hist_head_slot hb := by
          apply Fin.ext
          rw [hist_slot_at_val, hist_head_slot_val, hH, hC, ihh, ihc]
          have hc240 : min ps.length 240 < 240 := by omega
          rw [if_pos hc240]
          omega
        rw [hfe, Function.update_same]
        have hidx : ps.length + 1 - (ps.length + 1) + ps.length = ps.length := by omega
        rw [hidx, List.getD_append_right ps [p] [] ps.length (le_refl _), Nat.sub_self]
        refine ⟨rfl, ?_⟩
        rw [List.append_assoc]
        exact List.take_left p _
      · -- an untouched older slot
        have hilt : i < ps.length := by omega
        have hfe : hist_slot_at (bms_stats_hist_push hb (some p)) i =
            hist_slot_at hb i := by
          apply Fin.ext
          rw [hist_slot_at_val, hist_slot_at_val, hH, hC, ihh, ihc]
          have hc240 : min ps.length 240 < 240 := by omega
          rw [if_pos hc240]
          omega
        have hne : hist_slot_at hb i ≠ hist_head_slot hb := by
          intro hcontra
          have hval := congrArg Fin.val hcontra
          rw [hist_slot_at_val, hist_head_slot_val, ihh, ihc] at hval
          omega
        rw [hfe, Function.update_noteq hne]
        have hidx : ps.length + 1 - (ps.length + 1) + i = i := by omega
        rw [hidx, List.getD_append ps [p] [] i hilt]
        have hold := ihs i (by omega)
        have hidx2 : ps.length - min ps.length 240 + i = i := by omega
        rw [hidx2] at hold
        exact hold
    · -- the ring is already full: the oldest entry is overwritten
      have hmin2 : min (ps.length + 1) 240 = 240 := by omega
      rw [hmin2] at hi ⊢
      by_cases hiK : i = 239
      · -- the freshly written slot is the last render entry
        subst hiK
        have hfe : hist_slot_at (bms_stats_hist_push hb (some p)) 239 =
            hist_head_slot hb := by
          apply Fin.ext
          rw [hist_slot_at_val, hist_head_slot_val, hH, hC, ihh, ihc]
          have hc240 : ¬ min ps.length 240 < 240 := by omega
          rw [if_neg hc240]
          omega
        rw [hfe, Function.update_same]
        have hidx : ps.length + 1 - 240 + 239 = ps.length := by omega
        rw [hidx, List.getD_append_right ps [p] [] ps.length (le_refl _), Nat.sub_self]
        refine ⟨rfl, ?_⟩
        rw [List.append_assoc]
        exact List.take_left p _
      · -- older slots shift by one render position
        have hi239 : i < 239 := by omega
        have hfe : hist_slot_at (bms_stats_hist_push hb (some p)) i =
            hist_slot_at hb (i + 1) := by
          apply Fin.ext
          rw [hist_slot_at_val, hist_slot_at_val, hH, hC, ihh, ihc]
          have hc240 : ¬ min ps.length 240 < 240 := by omega
          rw [if_neg hc240]
          omega
        have hne : hist_slot_at hb (i + 1) ≠ hist_head_slot hb := by
          intro hcontra
          have hval := congrArg Fin.val hcontra
          rw [hist_slot_at_val, hist_head_slot_val, ihh, ihc] at hval
          omega
        rw [hfe, Function.update_noteq hne]
        have hi1 : ps.length + 1 - 240 + i < ps.length := by omega
        rw [List.getD_append ps [p] [] _ hi1]
        have hold := ihs (i + 1) (by omega)
        have hidx2 : ps.length - min ps.length 240 + (i + 1) = ps.length + 1 - 240 + i := by
          omega
        rw [hidx2] at hold
        exact hold

lemma map_getD_eq_drop (l : List (List ℕ)) (m : ℕ) (hm : m ≤ l.length) :
    (List.range (l.length - m)).map (fun i => l.getD (m + i) []) = l.drop m := by
  apply List.ext_get
  · simp
  · intro n h1 h2
    simp only [List.length_map, List.length_range] at h1
    simp only [List.get_eq_getElem, List.getElem_map, List.getElem_range, List.getElem_drop]
    rw [List.getD_eq_getElem l [] (by omega)]

lemma hist_len_le_push (hb : stats_history_buffer)
    (h : ∀ i, (hb.items i).len ≤ 511) (j : Option (List ℕ)) :
    ∀ i, ((bms_stats_hist_push hb j).items i).len ≤ 511 := by
  cases j with
  | none => exact h
  | some p =>
    by_cases hp : p.length = 0
    · simpa [bms_stats_hist_push, hp] using h
    · rw [hist_push_eq hb p hp]
      intro i
      by_cases hi : i = hist_head_slot hb
      · subst hi
        simp only [Function.update_same]
        simp only [BMS_STATS_JSON_MAXLEN]
        split_ifs <;> omega
      · simpa only [Function.update_noteq hi] using h i

lemma hist_push_all_len_le (hb : stats_history_buffer)
    (h : ∀ i, (hb.items i).len ≤ 511) (ps : List (List ℕ)) :
    ∀ i, ((hist_push_all hb ps).items i).len ≤ 511 := by
  induction ps generalizing hb with
  | nil => exact h
  | cons p ps ih =>
    have hstep : hist_push_all hb (p :: ps) =
        hist_push_all (bms_stats_hist_push hb (some p)) ps := rfl
    rw [hstep]
    exact ih _ (hist_len_le_push hb h (some p))

end HistoryFifoLemmas

/-- C6: after pushing more than 240 nonempty sub-512-byte payloads onto the
empty history ring, the ring holds exactly 240 entries, rendering it as a
JSON array yields exactly the last 240 payloads in push order, and every
stored slot records a payload length below 512 bytes. -/
theorem C6_history_fifo (ps : List (List ℕ)) (hK : 240 < ps.length)
    (hv : ∀ p ∈ ps, 0 < p.length ∧ p.length < 512) :
    hist_render_entries (hist_push_all hist_empty ps) = ps.drop (ps.length - 240) ∧
    (hist_push_all hist_empty ps).count = 240 ∧
    ∀ i : Fin BMS_HTTP_HISTORY_CAPACITY,
      ((hist_push_all hist_empty ps).items i).len < 512 := by
  obtain ⟨hh, hc, hs⟩ := hist_push_all_spec ps hv
  have hmin : min ps.length 240 = 240 := by omega
  rw [hmin] at hc hs
  refine ⟨?_, hc, ?_⟩
  · have hrange : hist_render_entries (hist_push_all hist_empty ps) =
        (List.range 240).map (fun i =>
          ps.getD (ps.length - 240 + i) []) := by
      rw [hist_render_entries, hc]
      apply List.map_congr_left
      intro a ha
      rw [List.mem_range] at ha
      obtain ⟨hlen, htake⟩ := hs a ha
      have hidx : ps.length - 240 + a < ps.length := by omega
      have hmem : ps.getD (ps.length - 240 + a) [] ∈ ps := by
        rw [List.getD_eq_getElem ps [] hidx]
        exact List.getElem_mem hidx
      have hlt : (ps.getD (ps.length - 240 + a) []).length < 512 := (hv _ hmem).2
      have hcase : (if BMS_STATS_JSON_MAXLEN ≤
          ((hist_push_all hist_empty ps).items
            (hist_slot_at (hist_push_all hist_empty ps) a)).len then
          BMS_STATS_JSON_MAXLEN - 1
          else ((hist_push_all hist_empty ps).items
            (hist_slot_at (hist_push_all hist_empty ps) a)).len) =
          ((hist_push_all hist_empty ps).items
            (hist_slot_at (hist_push_all hist_empty ps) a)).len := by
        rw [if_neg]
        rw [hlen]
        simp only [BMS_STATS_JSON_MAXLEN]
        omega
      simp only [hcase]
      simp only [hlen, htake]
    rw [hrange]
    have hdrop := map_getD_eq_drop ps (ps.length - 240) (by omega)
    have h240 : ps.length - (ps.length - 240) = 240 := by omega
    rw [h240] at hdrop
    exact hdrop
  · intro i
    have := hist_push_all_len_le hist_empty
      (fun i => by norm_num [hist_empty]) ps i
    omega

/-- Witness for C6: 241 one-byte payloads leave exactly the last 240 in the
ring. -/
theorem C6_history_fifo_witness :
    240 < (List.replicate 241 ([7] : List ℕ)).length ∧
    hist_render_entries (hist_push_all hist_empty (List.replicate 241 [7])) =
      (List.replicate 241 ([7] : List ℕ)).drop
        ((List.replicate 241 ([7] : List ℕ)).length - 240) ∧
    (hist_push_all hist_empty (List.replicate 241 [7])).count = 240 :=
  have h1 : 240 < (List.replicate 241 ([7] : List ℕ)).length := by
    rw [List.length_replicate]
    omega
  have h2 : ∀ p ∈ List.replicate 241 ([7] : List ℕ), 0 < p.length ∧ p.length < 512 := by
    intro p hp
    rw [List.eq_of_mem_replicate hp]
    exact ⟨by decide, by decide⟩
  ⟨h1, (C6_history_fifo _ h1 h2).1, (C6_history_fifo _ h1 h2).2.1⟩

section StagingFrameLemmas

lemma compute_refuses_small (cfg : bms_config) (buf : bms_sample_buffer)
    (h : buf.count < 20) : (bms_compute_stats cfg buf).2.2 = false := by
  simp only [bms_compute_stats, samples_per_1s]
  split_ifs <;> simp_all <;> omega

lemma processing_loop_staging (cfg : bms_config) (ser : bms_stats → Option (List ℕ)) :
    ∀ (n : ℕ) (s : sys_state), s.staging.count = n →
      (processing_loop cfg ser s).staging = aggregate_only cfg s.staging := by
  intro n
  induction n using Nat.strong_induction_on with
  | _ n ih =>
    intro s hn
    rw [processing_loop]
    by_cases hpos : 0 < s.staging.count
    · rw [if_pos hpos]
      by_cases hok : (bms_compute_stats cfg s.staging).2.2 = true
      · rw [dif_pos hok]
        have hdec := compute_consumes cfg s.staging hok
        refine (ih _ ?_ _ rfl).trans ?_
        · show (remove_processed_samples (bms_compute_stats cfg s.staging).1 1).count < n
          simp only [remove_processed_samples]
          omega
        · conv_rhs => rw [aggregate_only]
          rw [dif_pos hok]
          rfl
      · rw [dif_neg hok]
        conv_rhs => rw [aggregate_only]
        rw [dif_neg hok]
    · rw [if_neg hpos]
      have hfalse : ¬((bms_compute_stats cfg s.staging).2.2 = true) := by
        rw [compute_refuses_small cfg s.staging (by omega)]
        simp
      conv_rhs => rw [aggregate_only]
      rw [dif_neg hfalse]

end StagingFrameLemmas

/-- C7: in a PROCESSING iteration with the enter-config flag clear, the
staging ring after the handler equals what repeated application of the
aggregator alone produces from the drained staging ring — the
serialize/publish/history steps of the loop body touch no staging state —
and each successful aggregator call consumes exactly 20 samples, advancing
`head` by 20 modulo the capacity and shrinking `count` by 20. -/
theorem C7_staging_aggregator_only (cfg : bms_config)
    (ser : bms_stats → Option (List ℕ)) (s : sys_state)
    (hflag : ¬(s.nvs.open_ok = true ∧ s.nvs.config_mode = some 1)) :
    (state_processing_handler cfg ser s).2.staging =
      aggregate_only cfg (drain_queue s).staging ∧
    ∀ buf : bms_sample_buffer, (bms_compute_stats cfg buf).2.2 = true →
      (bms_compute_stats cfg buf).1.count + 20 = buf.count ∧
      (bms_compute_stats cfg buf).1.head = (buf.head + 20) % buf.capacity ∧
      (bms_compute_stats cfg buf).1.capacity = buf.capacity := by
  constructor
  · have hcf := check_flag_false s.nvs hflag
    simp only [state_processing_handler, hcf]
    exact processing_loop_staging cfg ser _ _ rfl
  · intro buf h
    obtain ⟨h1, -, h3, h4⟩ := compute_consumes cfg buf h
    exact ⟨h1, h3, h4⟩

/-- Witness for C7: a PROCESSING body over a staging ring holding one full
20-sample chunk leaves the staging ring exactly as the aggregator alone
leaves it, and the concrete fault-mode call consumes exactly 20 samples. -/
theorem C7_staging_aggregator_only_witness :
    (¬(wsys_noflag.nvs.open_ok = true ∧ wsys_noflag.nvs.config_mode = some 1)) ∧
    ((state_processing_handler wcfg wser wsys_noflag).2.staging =
      aggregate_only wcfg (drain_queue wsys_noflag).staging) ∧
    ((bms_compute_stats wcfg wbuf_fault).2.2 = true ∧
      (bms_compute_stats wcfg wbuf_fault).1.count + 20 = wbuf_fault.count) :=
  have hf : ¬(wsys_noflag.nvs.open_ok = true ∧ wsys_noflag.nvs.config_mode = some 1) := by
    decide
  have hok : (bms_compute_stats wcfg wbuf_fault).2.2 = true := by
    set_option maxRecDepth 100000 in decide
  ⟨hf, (C7_staging_aggregator_only wcfg wser wsys_noflag hf).1,
    hok, ((C7_staging_aggregator_only wcfg wser wsys_noflag hf).2 wbuf_fault hok).1⟩

section ConfigSaveLemmas

lemma config_save_netmask_bad (p : post_params) (cfg : configuration_t)
    (nvs : nvs_store) (so : Bool)
    (h : ∃ v, p.wifi_netmask = some v ∧ 0 < v.length ∧ is_valid_ip v = false) :
    config_save_netmask p cfg nvs so = (.error_modal, cfg, nvs, false) := by
  obtain ⟨v, hv, h1, h2⟩ := h
  simp only [config_save_netmask, hv]
  rw [if_pos ⟨h1, h2⟩]

lemma config_save_gateway_bad (p : post_params) (cfg : configuration_t)
    (nvs : nvs_store) (so : Bool)
    (h : (∃ v, p.wifi_gateway = some v ∧ 0 < v.length ∧ is_valid_ip v = false) ∨
         (∃ v, p.wifi_netmask = some v ∧ 0 < v.length ∧ is_valid_ip v = false)) :
    (config_save_gateway p cfg nvs so).1 = .error_modal ∧
    (config_save_gateway p cfg nvs so).2.2.1 = nvs ∧
    (config_save_gateway p cfg nvs so).2.2.2 = false := by
  rcases h with ⟨v, hv, h1, h2⟩ | hnm
  · simp only [config_save_gateway, hv]
    rw [if_pos ⟨h1, h2⟩]
    exact ⟨rfl, rfl, rfl⟩
  · cases hgw : p.wifi_gateway with
    | none =>
      simp only [config_save_gateway, hgw]
      rw [config_save_netmask_bad p cfg nvs so hnm]
      exact ⟨rfl, rfl, rfl⟩
    | some w =>
      simp only [config_save_gateway, hgw]
      by_cases hw : 0 < w.length ∧ is_valid_ip w = false
      · rw [if_pos hw]
        exact ⟨rfl, rfl, rfl⟩
      · rw [if_neg hw, config_save_netmask_bad p _ nvs so hnm]
        exact ⟨rfl, rfl, rfl⟩

end ConfigSaveLemmas

/-- Counterexample to C8 as stated: a save request with a new `wifi_ssid`
and the malformed static IP `999.1.1.1` gets the error modal, yet the
configuration singleton is changed — its SSID was overwritten before the
IP was validated (`http_server.c` stores `wifi_ssid` into `g_cfg` before
the static-IP check). -/
theorem C8_invalid_ip_counterexample :
    (h_config_save wp_bad wcfg_t wnvs true).1 = save_result.error_modal ∧
    ¬((h_config_save wp_bad wcfg_t wnvs true).2.1.wifi.ssid = wcfg_t.wifi.ssid) := by
  decide

/-- C8 (amended): a save request with some present, non-empty, invalid
IP-format field (static IP, gateway, or netmask) gets the HTML error modal,
does not persist the configuration, and leaves the NVS store — in
particular the `config_mode` flag — unchanged.  (The in-memory
configuration singleton may already have absorbed fields stored before the
failing check, such as `wifi_ssid`.) -/
theorem C8_invalid_ip_no_persist (p : post_params) (cfg : configuration_t)
    (nvs : nvs_store) (save_ok : Bool)
    (h : (∃ v, p.wifi_static_ip = some v ∧ 0 < v.length ∧ is_valid_ip v = false) ∨
         (∃ v, p.wifi_gateway = some v ∧ 0 < v.length ∧ is_valid_ip v = false) ∨
         (∃ v, p.wifi_netmask = some v ∧ 0 < v.length ∧ is_valid_ip v = false)) :
    (h_config_save p cfg nvs save_ok).1 = save_result.error_modal ∧
    (h_config_save p cfg nvs save_ok).2.2.1 = nvs ∧
    (h_config_save p cfg nvs save_ok).2.2.2 = false := by
  rcases h with ⟨v, hv, h1, h2⟩ | hrest
  · simp only [h_config_save, hv]
    rw [if_pos ⟨h1, h2⟩]
    exact ⟨rfl, rfl, rfl⟩
  · cases hsi : p.wifi_static_ip with
    | none =>
      simp only [h_config_save, hsi]
      exact config_save_gateway_bad p _ nvs save_ok hrest
    | some w =>
      simp only [h_config_save, hsi]
      by_cases hw : 0 < w.length ∧ is_valid_ip w = false
      · rw [if_pos hw]
        exact ⟨rfl, rfl, rfl⟩
      · rw [if_neg hw]
        exact config_save_gateway_bad p _ nvs save_ok hrest

/-- Witness for C8: the concrete malformed-static-IP request yields the
error modal, an unchanged NVS store, and no persistence. -/
theorem C8_invalid_ip_no_persist_witness :
    (wp_bad.wifi_static_ip = some ['9', '9', '9', '.', '1', '.', '1', '.', '1'] ∧
      is_valid_ip ['9', '9', '9', '.', '1', '.', '1', '.', '1'] = false) ∧
    (h_config_save wp_bad wcfg_t wnvs true).1 = save_result.error_modal ∧
    (h_config_save wp_bad wcfg_t wnvs true).2.2.1 = wnvs ∧
    (h_config_save wp_bad wcfg_t wnvs true).2.2.2 = false :=
  have h : (∃ v, wp_bad.wifi_static_ip = some v ∧ 0 < v.length ∧
        is_valid_ip v = false) ∨
      (∃ v, wp_bad.wifi_gateway = some v ∧ 0 < v.length ∧ is_valid_ip v = false) ∨
      (∃ v, wp_bad.wifi_netmask = some v ∧ 0 < v.length ∧ is_valid_ip v = false) :=
    Or.inl ⟨['9', '9', '9', '.', '1', '.', '1', '.', '1'], rfl, by decide, by decide⟩
  ⟨⟨rfl, by decide⟩,
    C8_invalid_ip_no_persist wp_bad wcfg_t wnvs true h⟩

/-- Counterexample to C9 as stated: a reachable Fast-Core state with
`allow_feeding` tripped to false has a later step of the program —
`fast_core_tasks_delete`, run on CONFIG entry — that sets it back to true
before any process restart ("Reset flags for potential restart",
`tasksFC.c`). -/
theorem C9_latch_counterexample :
    ∃ (s t : fc_state) (l : fc_label),
      fc_reachable s ∧ s.allow_feeding = false ∧ fc_step l s t ∧
        t.allow_feeding = true :=
  ⟨{ allow_feeding := false, should_exit := false },
   { allow_feeding := true, should_exit := false }, .delete_tasks,
   fc_reachable.step .queue_full_trip fc_reachable.refl
     (fc_step.queue_full_trip fc_init rfl),
   rfl, fc_step.delete_tasks _, rfl⟩

/-- C9 (amended): within a single process run, once `allow_feeding` is
false, the only step of the program that sets it back to true is the
Fast-Core task teardown `fast_core_tasks_delete` (run on entry to CONFIG
after signalling and deleting the Fast-Core tasks); every sampler or
feeder iteration and every trip leaves the flag false. -/
theorem C9_latch_until_teardown (l : fc_label) (s t : fc_state)
    (hstep : fc_step l s t) (h0 : s.allow_feeding = false)
    (h1 : t.allow_feeding = true) : l = fc_label.delete_tasks := by
  cases hstep <;> simp_all

/-- Witness for C9: the teardown step on a tripped state is the one that
re-enables feeding. -/
theorem C9_latch_until_teardown_witness :
    fc_step fc_label.delete_tasks
      { allow_feeding := false, should_exit := false }
      { allow_feeding := true, should_exit := false } ∧
    fc_label.delete_tasks = fc_label.delete_tasks :=
  have hs : fc_step fc_label.delete_tasks
      { allow_feeding := false, should_exit := false }
      { allow_feeding := true, should_exit := false } :=
    fc_step.delete_tasks _
  ⟨hs, C9_latch_until_teardown _ _ _ hs rfl rfl⟩

end BMS
